import Mathlib

/-!
Verification development for the BiddingAssistant client core
(`frontend/miniprogram/pages/home/home.js` and `frontend/web/main.js`).

The embedding works over JSON-like runtime values (`JVal`), the values that
`res.data` / `resp.json()` can produce.  Property lookup, truthiness, the
logical-or defaulting idiom (`x || d`), `Object.keys`, object spread and
`Array.prototype.map` are modelled faithfully for this value universe;
fallible operations (property access on `null`/`undefined`, calling `.map`
on a non-array) return `Except Unit _`, with `.error ()` standing for a
thrown `TypeError`.  JSON numbers are modelled as integers (no claim
depends on float behaviour, and JSON has no `NaN`); prototype-chain
lookups are below the abstraction level of the embedding (every object is
its own-property list, as produced by JSON parsing).

The two clients' polling logic is embedded as explicit event-driven state
machines (`WebState`/`stepW`, `MiniState`/`stepM`): the environment picks
the next event (a user click, a timer firing, a network response arriving),
and the step function runs the corresponding handler from the source.
DOM construction inside `renderResults` / `setData` rendering details are
the spec's explicit non-goal (its section 1); a call to the delivery path
is recorded in an outcome log tagged with the submission it belongs to and
with the number of submissions started at delivery time.
-/

/-- JSON-like runtime values (the possible shapes of `res.data`). -/
inductive JVal where
  | null
  | undef
  | bool (b : Bool)
  | num (n : Int)
  | str (s : String)
  | arr (elems : List JVal)
  | obj (fields : List (String × JVal))

/-- JavaScript truthiness on JSON-like values (`NaN` cannot occur in JSON). -/
def truthy : JVal → Bool
  | .null => false
  | .undef => false
  | .bool b => b
  | .num n => n != 0
  | .str s => s != ""
  | .arr _ => true
  | .obj _ => true

/-- The `a || b` defaulting idiom. -/
def jsOr (a b : JVal) : JVal := if truthy a then a else b

/-- `v === "s"` for a string literal `s`. -/
def isStrEq (v : JVal) (s : String) : Bool :=
  match v with
  | .str t => t == s
  | _ => false

def JVal.isNullOrUndef : JVal → Bool
  | .null => true
  | .undef => true
  | _ => false

def JVal.isUndef : JVal → Bool
  | .undef => true
  | _ => false

def JVal.isObj : JVal → Bool
  | .obj _ => true
  | _ => false

/-- Canonical array-index strings ("0", "1", ..., digits without a
leading zero), as used by JS integer-indexed property access. -/
def strIndex? (s : String) : Option Nat :=
  match s.toList with
  | [] => none
  | ['0'] => some 0
  | c :: cs =>
      if c != '0' && (c :: cs).all Char.isDigit then
        some ((c :: cs).foldl (fun a ch => a * 10 + (ch.toNat - 48)) 0)
      else none

/-- Property read `v[k]` on a value known not to be `null`/`undefined`
(total helper; on `null`/`undefined` real JS throws, see `getProp`).
Array and string indexing accept only canonical index strings. -/
def getPropD : JVal → String → JVal
  | .obj fs, k => ((fs.find? (fun p => p.1 == k)).map Prod.snd).getD .undef
  | .arr xs, k =>
      if k == "length" then .num xs.length
      else
        match strIndex? k with
        | some i => xs.getD i .undef
        | none => .undef
  | .str s, k =>
      if k == "length" then .num s.length
      else
        match strIndex? k with
        | some i =>
            match s.toList.get? i with
            | some c => .str (String.singleton c)
            | none => .undef
        | none => .undef
  | _, _ => JVal.undef

/-- Property read `v[k]`: throws on `null`/`undefined`. -/
def getProp (v : JVal) (k : String) : Except Unit JVal :=
  if v.isNullOrUndef then .error () else .ok (getPropD v k)

/-- `Object.keys(v)` (throws on `null`/`undefined`). -/
def objectKeys (v : JVal) : Except Unit (List String) :=
  match v with
  | .null => .error ()
  | .undef => .error ()
  | .obj fs => .ok (fs.map Prod.fst)
  | .arr xs => .ok ((List.range xs.length).map toString)
  | .str s => .ok ((List.range s.length).map toString)
  | _ => .ok []

/-- Own enumerable fields contributed by `{...v}` (spread of `null`,
`undefined`, numbers and booleans contributes nothing). -/
def spreadFields : JVal → List (String × JVal)
  | .obj fs => fs
  | .arr xs => xs.enum.map (fun p => (toString p.1, p.2))
  | .str s => s.toList.enum.map (fun p => (toString p.1, .str (String.singleton p.2)))
  | _ => []

/-- Property assignment `o[k] = v` on an own-property list: replaces in
place when the key exists (keeping its position, as JS does), otherwise
appends. -/
def objSet (fs : List (String × JVal)) (k : String) (v : JVal) : List (String × JVal) :=
  if fs.any (fun p => p.1 == k) then
    fs.map (fun p => if p.1 == k then (k, v) else p)
  else fs ++ [(k, v)]

/-- `Array.prototype.map`: throws when the receiver is not an array
(JSON values have no own `map` method). -/
def jsArrayMap (v : JVal) (f : JVal → Except Unit JVal) : Except Unit JVal :=
  match v with
  | .arr xs => (xs.mapM f).map .arr
  | _ => .error ()

/-- The `severityMap` object literal shared by both clients
(home.js lines 3-8, main.js lines 3-8). -/
def severityMap : String → Option String
  | "critical" => some "高风险"
  | "high" => some "较高风险"
  | "medium" => some "中风险"
  | "low" => some "低风险"
  | _ => none

/-- `severityMap[v]` for an arbitrary value `v`: JS stringifies the key;
non-string severities stringify to forms ("undefined", "null", numerals,
"[object Object]", comma-joined arrays) that are never keys of the map,
so they all miss. -/
def severityLookup (v : JVal) : JVal :=
  match v with
  | .str s =>
      match severityMap s with
      | some l => .str l
      | none => .undef
  | _ => JVal.undef

/-- The miniprogram severity classifier expression
`severityMap[item.severity] || item.severity` (home.js line 16),
restricted to string severity codes. -/
def classifyMini (code : String) : JVal :=
  jsOr (severityLookup (.str code)) (.str code)

/-- `String.prototype.toLowerCase` (the inputs that matter are ASCII or
unaffected CJK characters, where JS and `Char.toLower` agree). -/
def asciiLower (s : String) : String := String.mk (s.toList.map Char.toLower)

/-- The web severity classifier, main.js lines 94-96:
`const level = (item.severity || 'medium').toLowerCase()` followed by
`severityMap[level] || level`, restricted to string severity codes. -/
def classifyWeb (code : String) : String :=
  let level := asciiLower (if truthy (.str code) then code else "medium")
  ((severityMap level).getD level)

/-- One hit of `normalizeResult`'s inner `.map` callback (home.js
lines 14-19): `{ ...item, severityLabel: severityMap[item.severity] ||
item.severity, items: item.items || [], evidences: item.evidences || [] }`.
Accessing `item.severity` on a `null`/`undefined` item throws. -/
def normalizeHit (item : JVal) : Except Unit JVal :=
  if item.isNullOrUndef then .error () else
  let base := spreadFields item
  let label := jsOr (severityLookup (getPropD item "severity")) (getPropD item "severity")
  let its := jsOr (getPropD item "items") (.arr [])
  let evs := jsOr (getPropD item "evidences") (.arr [])
  .ok (.obj (objSet (objSet (objSet base "severityLabel" label) "items" its) "evidences" evs))

/-- `(categories[cat] || []).map(item => ...)` (home.js line 14). -/
def normalizeItems (v : JVal) : Except Unit JVal :=
  jsArrayMap (jsOr v (.arr [])) normalizeHit

/-- The `Object.keys(categories).forEach(...)` loop of `normalizeResult`
(home.js lines 13-20): sequentially assigns `normalized[cat] =
(categories[cat] || []).map(...)`, threading the accumulator. -/
def normalizeCatsFrom (categories : JVal) (acc : List (String × JVal)) :
    List String → Except Unit (List (String × JVal))
  | [] => .ok acc
  | k :: ks => do
      let hits ← normalizeItems (getPropD categories k)
      normalizeCatsFrom categories (objSet acc k hits) ks

/-- `normalizeResult` (home.js lines 10-25).  The `result = {}` default
parameter applies only to `undefined`; `null` flows through and
`result.categories` throws on it. -/
def normalizeResult (result : JVal) : Except Unit JVal :=
  let result := if result.isUndef then .obj [] else result
  if result.isNullOrUndef then .error () else
  let categories := jsOr (getPropD result "categories") (.obj [])
  match objectKeys categories with
  | .error e => .error e
  | .ok keys =>
      match normalizeCatsFrom categories [] keys with
      | .error e => .error e
      | .ok normalized =>
          .ok (.obj [("summary", jsOr (getPropD result "summary") (.obj [])),
                     ("categories", .obj normalized)])

/-- A pending `setTimeout` callback: its handle, the submission whose poll
chain created it, the job id it will poll, and the delay it was armed with. -/
structure Timer where
  id : Nat
  sub : Nat
  job : JVal
  delay : Nat

/-- An in-flight status-poll request. -/
structure PollFetch where
  id : Nat
  sub : Nat
  job : JVal

/-- An in-flight submission request. -/
structure SubFetch where
  id : Nat
  sub : Nat

/-- An observable outcome handed to the rendering layer: a delivered
result (the argument of the `renderResults` success path) or an error
report (`setStatus(..., 'error')` resp. the miniprogram's failure
`setData`). -/
inductive Outcome where
  | result (payload : JVal)
  | failure (msg : JVal)

/-- One delivery record: which submission the delivering callback chain
belongs to, what was delivered, and how many submissions had been started
when it was delivered (ghost instrumentation; `seen = sub + 1` means the
submission was still the current one). -/
structure LogEntry where
  sub : Nat
  out : Outcome
  seen : Nat

/-- The web client's mutable world (`frontend/web/main.js`): the
module-level `pollTimer` variable, the pending timers and in-flight
requests of the browser runtime, the rendered results area, and the
analyze button's disabled flag. -/
structure WebState where
  nextId : Nat
  subCount : Nat
  pollTimer : Option Nat
  timers : List Timer
  fetches : List PollFetch
  subFetches : List SubFetch
  log : List LogEntry
  display : Option JVal
  disabled : Bool

/-- `clearTimeout(pollTimer); pollTimer = null` (browser timer handles are
never 0, so the `if (pollTimer)` guard in `clearResults` is equivalent to
a non-null test, modelled by `Option`). -/
def clearPollTimer (s : WebState) : WebState :=
  match s.pollTimer with
  | some t => { s with timers := s.timers.filter (fun x => x.id != t), pollTimer := none }
  | none => s

/-- `setStatus(msg, 'error')` on some callback chain, plus the
`els.analyze.disabled = false` that accompanies every error path. -/
def webLogErr (s : WebState) (sub : Nat) (msg : JVal) : WebState :=
  { s with log := s.log ++ [⟨sub, .failure msg, s.subCount⟩], disabled := false }

/-- The success delivery path: `renderResults(payload)`, `setStatus('分析完成 ✅')`,
`hideProgress()`, `els.analyze.disabled = false`. -/
def webDeliver (s : WebState) (sub : Nat) (payload : JVal) : WebState :=
  { s with display := some payload,
           log := s.log ++ [⟨sub, .result payload, s.subCount⟩],
           disabled := false }

/-- `pollJob(jobId)` (main.js lines 345-346 and 374): arms one
`setTimeout(..., 1600)` and stores its handle in `pollTimer`. -/
def pollJobSched (s : WebState) (sub : Nat) (job : JVal) : WebState :=
  { s with timers := s.timers ++ [⟨s.nextId, sub, job, 1600⟩],
           pollTimer := some s.nextId,
           nextId := s.nextId + 1 }

/-- `handleJobResponse` after a 2xx response whose body parsed to `data`
(main.js lines 328-343).  `data.status` on a `null` body throws and is
caught by the click listener's catch block, which reports the error. -/
def handleJobOk (s : WebState) (sub : Nat) (data : JVal) : WebState :=
  if data.isNullOrUndef then
    webLogErr s sub (.str "TypeError")
  else if truthy (getPropD data "status") && !truthy (getPropD data "result") then
    (if truthy (getPropD data "job_id") then pollJobSched s sub (getPropD data "job_id")
     else { s with disabled := false })
  else
    webDeliver s sub (jsOr (getPropD data "result") data)

/-- The analyze-button click listener (main.js lines 377-397) on a
non-empty input: `clearStatus(); clearResults()` (which invalidates the
timer `pollTimer` refers to), then `analyzeText`/`analyzeFile` disables
the button and issues the submission request. -/
def webClick (s : WebState) : WebState :=
  let s1 := clearPollTimer { s with display := none }
  { s1 with disabled := true,
            subFetches := s1.subFetches ++ [⟨s1.nextId, s1.subCount⟩],
            nextId := s1.nextId + 1,
            subCount := s1.subCount + 1 }

/-- The body of `pollJob`'s timer callback after its `fetch` resolved
with a 2xx response whose body parsed to `data` (main.js lines 350-366):
`completed` and `failed` run `clearTimeout(pollTimer); pollTimer = null`
(note: `pollTimer` may by now refer to a later submission's timer) and
deliver; any other status re-arms `pollJob(jobId)`; a `null` body throws
at `data.status` into the catch block (lines 367-373). -/
def pollTick (s : WebState) (sub : Nat) (job : JVal) (data : JVal) : WebState :=
  if data.isNullOrUndef then
    webLogErr (clearPollTimer s) sub (.str "TypeError")
  else if isStrEq (getPropD data "status") "completed" then
    webDeliver (clearPollTimer s) sub (jsOr (getPropD data "result") (.obj []))
  else if isStrEq (getPropD data "status") "failed" then
    webLogErr (clearPollTimer s) sub (jsOr (getPropD data "error") (.str "分析失败"))
  else
    pollJobSched s sub job

/-- Environment events the web client reacts to: the user clicking
analyze, a submission request resolving (2xx body) or failing, a pending
timer firing (which issues the poll request), and a poll request
resolving or failing (network error or non-2xx, main.js line 349). -/
inductive WebEv where
  | click
  | subOk (fid : Nat) (data : JVal)
  | subFail (fid : Nat) (msg : String)
  | timerFire (tid : Nat)
  | pollOk (fid : Nat) (data : JVal)
  | pollFail (fid : Nat) (msg : String)

/-- One step of the web client's single-threaded event loop.  Events that
reference no live request/timer (impossible in traces generated by the
environment) leave the state unchanged. -/
def stepW (s : WebState) : WebEv → WebState
  | .click => webClick s
  | .subOk fid data =>
      match s.subFetches.find? (fun g => g.id == fid) with
      | some g =>
          handleJobOk { s with subFetches := s.subFetches.filter (fun x => x.id != fid) } g.sub data
      | none => s
  | .subFail fid msg =>
      match s.subFetches.find? (fun g => g.id == fid) with
      | some g =>
          webLogErr { s with subFetches := s.subFetches.filter (fun x => x.id != fid) } g.sub (.str msg)
      | none => s
  | .timerFire tid =>
      match s.timers.find? (fun t => t.id == tid) with
      | some t =>
          { s with timers := s.timers.filter (fun x => x.id != tid),
                   fetches := s.fetches ++ [⟨s.nextId, t.sub, t.job⟩],
                   nextId := s.nextId + 1 }
      | none => s
  | .pollOk fid data =>
      match s.fetches.find? (fun f => f.id == fid) with
      | some f =>
          pollTick { s with fetches := s.fetches.filter (fun x => x.id != fid) } f.sub f.job data
      | none => s
  | .pollFail fid msg =>
      match s.fetches.find? (fun f => f.id == fid) with
      | some f =>
          webLogErr (clearPollTimer { s with fetches := s.fetches.filter (fun x => x.id != fid) })
            f.sub (.str msg)
      | none => s

def initW : WebState := ⟨0, 0, none, [], [], [], [], none, false⟩

def runWFrom (s : WebState) (evs : List WebEv) : WebState := evs.foldl stepW s

def runW (evs : List WebEv) : WebState := runWFrom initW evs

/-- What `_handleJob` (home.js lines 81-113) decides to do with one job
snapshot. -/
inductive MiniAct where
  | deliver (normalized : JVal) (jobId : JVal)
  | failJob (msg : JVal) (jobId : JVal)
  | poll (jobId : JVal)
  | noJobId

/-- `_handleJob(job)` as a pure decision function.  Its callers always
pass `res.data || {}`, so `job` is truthy there; a `null` argument would
throw at `job.status`.  Normalization happens before any `setData`, so a
throw inside `normalizeResult` leaves the page state untouched. -/
def handleJob (job : JVal) : Except Unit MiniAct :=
  if job.isNullOrUndef then .error () else
  if isStrEq (jsOr (getPropD job "status") (.str "")) "completed" && truthy (getPropD job "result") then
    (normalizeResult (getPropD job "result")).map
      (fun n => .deliver n (jsOr (getPropD job "job_id") .null))
  else if isStrEq (jsOr (getPropD job "status") (.str "")) "failed" then
    .ok (.failJob (jsOr (getPropD job "error") (.str "分析失败")) (jsOr (getPropD job "job_id") .null))
  else if truthy (getPropD job "job_id") then
    .ok (.poll (getPropD job "job_id"))
  else .ok .noJobId

/-- The miniprogram page's world (`home.js`): in-flight `wx.request`
calls, pending `_pollJob` timers, and the `setData` fields the claims
talk about.  The page has no cancellation logic at all. -/
structure MiniState where
  nextId : Nat
  subCount : Nat
  reqs : List SubFetch
  timers : List Timer
  polls : List PollFetch
  log : List LogEntry
  statusText : JVal
  loading : Bool

/-- Apply a `_handleJob` decision to the page state.  `deliver` is the
success `setData` (logged as a result outcome), `failJob` and `noJobId`
are the terminal failure `setData`s (logged as failure outcomes), `poll`
arms one `setTimeout(..., 1500)` via `_pollJob`.  A thrown decision
(`Except.error`) aborts the callback before any `setData`. -/
def applyMini (s : MiniState) (sub : Nat) : Except Unit MiniAct → MiniState
  | .error _ => s
  | .ok (.deliver n _) =>
      { s with log := s.log ++ [⟨sub, .result n, s.subCount⟩],
               statusText := .str "分析完成", loading := false }
  | .ok (.failJob m _) =>
      { s with log := s.log ++ [⟨sub, .failure m, s.subCount⟩],
               statusText := m, loading := false }
  | .ok (.poll jid) =>
      { s with statusText := .str "分析进行中...", loading := true,
               timers := s.timers ++ [⟨s.nextId, sub, jid, 1500⟩],
               nextId := s.nextId + 1 }
  | .ok .noJobId =>
      { s with log := s.log ++ [⟨sub, .failure (.str "未返回任务 ID"), s.subCount⟩],
               statusText := .str "未返回任务 ID", loading := false }

/-- Environment events for the miniprogram page: `onAnalyze` with a
non-empty input, the analyze request resolving/failing, a `_pollJob`
timer firing, and the poll request resolving/failing. -/
inductive MiniEv where
  | analyze
  | reqOk (fid : Nat) (data : JVal)
  | reqFail (fid : Nat)
  | timerFire (tid : Nat)
  | pollOk (fid : Nat) (data : JVal)
  | pollFail (fid : Nat)

/-- One step of the miniprogram's event loop (home.js lines 51-128). -/
def stepM (s : MiniState) : MiniEv → MiniState
  | .analyze =>
      { s with statusText := .str "分析中...请稍候", loading := true,
               reqs := s.reqs ++ [⟨s.nextId, s.subCount⟩],
               nextId := s.nextId + 1, subCount := s.subCount + 1 }
  | .reqOk fid data =>
      match s.reqs.find? (fun g => g.id == fid) with
      | some g =>
          applyMini { s with reqs := s.reqs.filter (fun x => x.id != fid) } g.sub
            (handleJob (jsOr data (.obj [])))
      | none => s
  | .reqFail fid =>
      match s.reqs.find? (fun g => g.id == fid) with
      | some g =>
          { s with reqs := s.reqs.filter (fun x => x.id != fid),
                   log := s.log ++ [⟨g.sub, .failure (.str "接口请求失败"), s.subCount⟩],
                   statusText := .str "接口请求失败", loading := false }
      | none => s
  | .timerFire tid =>
      match s.timers.find? (fun t => t.id == tid) with
      | some t =>
          { s with timers := s.timers.filter (fun x => x.id != tid),
                   polls := s.polls ++ [⟨s.nextId, t.sub, t.job⟩],
                   nextId := s.nextId + 1 }
      | none => s
  | .pollOk fid data =>
      match s.polls.find? (fun f => f.id == fid) with
      | some f =>
          applyMini { s with polls := s.polls.filter (fun x => x.id != fid) } f.sub
            (handleJob (jsOr data (.obj [])))
      | none => s
  | .pollFail fid =>
      match s.polls.find? (fun f => f.id == fid) with
      | some f =>
          { s with polls := s.polls.filter (fun x => x.id != fid),
                   log := s.log ++ [⟨f.sub, .failure (.str "轮询失败"), s.subCount⟩],
                   statusText := .str "轮询失败", loading := false }
      | none => s

def initM : MiniState := ⟨0, 0, [], [], [], [], .str "", false⟩

def runMFrom (s : MiniState) (evs : List MiniEv) : MiniState := evs.foldl stepM s

def runM (evs : List MiniEv) : MiniState := runMFrom initM evs

/-- The outcomes logged for submission `i`. -/
def logFor (l : List LogEntry) (i : Nat) : List LogEntry := l.filter (fun e => e.sub == i)

/-- Submission `i` has quiesced in the web client: no pending timer, no
in-flight poll and no in-flight submission request belongs to it. -/
def deadW (s : WebState) (i : Nat) : Prop :=
  (∀ t ∈ s.timers, t.sub ≠ i) ∧ (∀ f ∈ s.fetches, f.sub ≠ i) ∧ (∀ g ∈ s.subFetches, g.sub ≠ i)

/-- Submission `i` has quiesced in the miniprogram page. -/
def deadM (s : MiniState) (i : Nat) : Prop :=
  (∀ g ∈ s.reqs, g.sub ≠ i) ∧ (∀ t ∈ s.timers, t.sub ≠ i) ∧ (∀ f ∈ s.polls, f.sub ≠ i)

theorem logFor_append_ne (l : List LogEntry) (e : LogEntry) (i : Nat) (h : e.sub ≠ i) :
    logFor (l ++ [e]) i = logFor l i := by
  simp [logFor, List.filter_append, List.filter_cons, h]

/-- A successful `find?` on a list with `Nodup` ids splits the list, and
removal by id removes exactly the found element. -/
theorem find_filter_split {α : Type} (idf : α → Nat) (fid : Nat) :
    ∀ (l : List α) (a : α), l.find? (fun x => idf x == fid) = some a →
    (l.map idf).Nodup →
    idf a = fid ∧ ∃ l1 l2, l = l1 ++ a :: l2 ∧
      l.filter (fun x => idf x != fid) = l1 ++ l2 := by
  intro l
  induction l with
  | nil => intro a ha _; simp [List.find?] at ha
  | cons x xs ih =>
      intro a ha hnd
      by_cases hx : (idf x == fid) = true
      · have hax : a = x := by
          simp [List.find?, hx] at ha
          exact ha.symm
        subst hax
        have hfid : idf a = fid := by simpa using hx
        have hnotin : idf a ∉ xs.map idf := (List.nodup_cons.mp hnd).1
        have hself : xs.filter (fun y => idf y != fid) = xs := by
          apply List.filter_eq_self.mpr
          intro y hy
          have hne : idf y ≠ fid := by
            intro hcontra
            apply hnotin
            rw [hfid, ← hcontra]
            exact List.mem_map_of_mem idf hy
          simpa using hne
        refine ⟨hfid, [], xs, by simp, ?_⟩
        simp [List.filter_cons, hfid, hself]
      · have ha2 : xs.find? (fun y => idf y == fid) = some a := by
          simpa [List.find?, hx] using ha
        obtain ⟨hfid, l1, l2, hsplit, hfilter⟩ := ih a ha2 (List.nodup_cons.mp hnd).2
        refine ⟨hfid, x :: l1, l2, by simp [hsplit], ?_⟩
        have hxne : (idf x != fid) = true := by simpa using hx
        simp [List.filter_cons, hxne, hfilter]

theorem deadW_clearPollTimer (s : WebState) (i : Nat) (hd : deadW s i) :
    deadW (clearPollTimer s) i := by
  obtain ⟨hdt, hdf, hdg⟩ := hd
  unfold clearPollTimer
  cases s.pollTimer with
  | none => exact ⟨hdt, hdf, hdg⟩
  | some t =>
      exact ⟨fun x hx => hdt x (List.mem_of_mem_filter hx), hdf, hdg⟩

theorem clearPollTimer_log (s : WebState) : (clearPollTimer s).log = s.log := by
  unfold clearPollTimer; cases s.pollTimer <;> rfl

theorem clearPollTimer_subCount (s : WebState) : (clearPollTimer s).subCount = s.subCount := by
  unfold clearPollTimer; cases s.pollTimer <;> rfl

theorem clearPollTimer_fetches (s : WebState) : (clearPollTimer s).fetches = s.fetches := by
  unfold clearPollTimer; cases s.pollTimer <;> rfl

theorem clearPollTimer_subFetches (s : WebState) : (clearPollTimer s).subFetches = s.subFetches := by
  unfold clearPollTimer; cases s.pollTimer <;> rfl

theorem dead_handleJobOk (s : WebState) (j i : Nat) (data : JVal)
    (hji : j ≠ i) (hd : deadW s i) :
    deadW (handleJobOk s j data) i ∧
      logFor (handleJobOk s j data).log i = logFor s.log i ∧
      (handleJobOk s j data).subCount = s.subCount := by
  obtain ⟨hdt, hdf, hdg⟩ := hd
  unfold handleJobOk webLogErr webDeliver pollJobSched
  split_ifs with h1 h2 h3
  · exact ⟨⟨hdt, hdf, hdg⟩, logFor_append_ne _ _ _ hji, rfl⟩
  · refine ⟨⟨?_, hdf, hdg⟩, rfl, rfl⟩
    intro t ht
    rcases List.mem_append.mp ht with h | h
    · exact hdt t h
    · simp at h; subst h; exact hji
  · exact ⟨⟨hdt, hdf, hdg⟩, rfl, rfl⟩
  · exact ⟨⟨hdt, hdf, hdg⟩, logFor_append_ne _ _ _ hji, rfl⟩

theorem dead_pollTick (s : WebState) (j i : Nat) (job data : JVal)
    (hji : j ≠ i) (hd : deadW s i) :
    deadW (pollTick s j job data) i ∧
      logFor (pollTick s j job data).log i = logFor s.log i ∧
      (pollTick s j job data).subCount = s.subCount := by
  have hdc := deadW_clearPollTimer s i hd
  obtain ⟨hdt, hdf, hdg⟩ := hd
  obtain ⟨hct, hcf, hcg⟩ := hdc
  unfold pollTick webLogErr webDeliver pollJobSched
  split_ifs with h1 h2 h3
  · exact ⟨⟨hct, hcf, hcg⟩,
      by rw [logFor_append_ne _ _ _ hji, clearPollTimer_log],
      clearPollTimer_subCount s⟩
  · exact ⟨⟨hct, hcf, hcg⟩,
      by rw [logFor_append_ne _ _ _ hji, clearPollTimer_log],
      clearPollTimer_subCount s⟩
  · exact ⟨⟨hct, hcf, hcg⟩,
      by rw [logFor_append_ne _ _ _ hji, clearPollTimer_log],
      clearPollTimer_subCount s⟩
  · refine ⟨⟨?_, hdf, hdg⟩, rfl, rfl⟩
    intro t ht
    rcases List.mem_append.mp ht with h | h
    · exact hdt t h
    · simp at h; subst h; exact hji

theorem dead_stepW (s : WebState) (i : Nat) (ev : WebEv)
    (hc : i < s.subCount) (hd : deadW s i) :
    deadW (stepW s ev) i ∧ logFor (stepW s ev).log i = logFor s.log i ∧
      i < (stepW s ev).subCount := by
  obtain ⟨hdt, hdf, hdg⟩ := hd
  cases ev with
  | click =>
      show deadW (webClick s) i ∧ _ ∧ _
      unfold webClick
      obtain ⟨h1, h2, h3⟩ := deadW_clearPollTimer { s with display := none } i ⟨hdt, hdf, hdg⟩
      refine ⟨⟨h1, h2, ?_⟩, ?_, ?_⟩
      · intro g hg
        rcases List.mem_append.mp hg with h | h
        · exact h3 g h
        · simp at h
          rw [h, clearPollTimer_subCount]
          show s.subCount ≠ i
          omega
      · show logFor (clearPollTimer { s with display := none }).log i = _
        rw [clearPollTimer_log]
      · show i < (clearPollTimer { s with display := none }).subCount + 1
        rw [clearPollTimer_subCount]
        show i < s.subCount + 1
        omega
  | subOk fid data =>
      show deadW (stepW s (.subOk fid data)) i ∧ _
      cases hfind : s.subFetches.find? (fun g => g.id == fid) with
      | none => simp only [stepW, hfind]; exact ⟨⟨hdt, hdf, hdg⟩, by trivial, hc⟩
      | some g =>
          simp only [stepW, hfind]
          have hgs : g.sub ≠ i := hdg g (List.mem_of_find?_eq_some hfind)
          have hd2 : deadW { s with subFetches := s.subFetches.filter (fun x => x.id != fid) } i :=
            ⟨hdt, hdf, fun x hx => hdg x (List.mem_of_mem_filter hx)⟩
          obtain ⟨ha, hb, hcnt⟩ := dead_handleJobOk _ g.sub i data hgs hd2
          exact ⟨ha, hb, by rw [hcnt]; exact hc⟩
  | subFail fid msg =>
      show deadW (stepW s (.subFail fid msg)) i ∧ _
      cases hfind : s.subFetches.find? (fun g => g.id == fid) with
      | none => simp only [stepW, hfind]; exact ⟨⟨hdt, hdf, hdg⟩, by trivial, hc⟩
      | some g =>
          simp only [stepW, hfind]
          have hgs : g.sub ≠ i := hdg g (List.mem_of_find?_eq_some hfind)
          unfold webLogErr
          exact ⟨⟨hdt, hdf, fun x hx => hdg x (List.mem_of_mem_filter hx)⟩,
            logFor_append_ne _ _ _ hgs, hc⟩
  | timerFire tid =>
      show deadW (stepW s (.timerFire tid)) i ∧ _
      cases hfind : s.timers.find? (fun t => t.id == tid) with
      | none => simp only [stepW, hfind]; exact ⟨⟨hdt, hdf, hdg⟩, by trivial, hc⟩
      | some t =>
          simp only [stepW, hfind]
          have hts : t.sub ≠ i := hdt t (List.mem_of_find?_eq_some hfind)
          refine ⟨⟨fun x hx => hdt x (List.mem_of_mem_filter hx), ?_, hdg⟩, by trivial, hc⟩
          intro f hf
          rcases List.mem_append.mp hf with h | h
          · exact hdf f h
          · simp at h; rw [h]; exact hts
  | pollOk fid data =>
      show deadW (stepW s (.pollOk fid data)) i ∧ _
      cases hfind : s.fetches.find? (fun f => f.id == fid) with
      | none => simp only [stepW, hfind]; exact ⟨⟨hdt, hdf, hdg⟩, by trivial, hc⟩
      | some f =>
          simp only [stepW, hfind]
          have hfs : f.sub ≠ i := hdf f (List.mem_of_find?_eq_some hfind)
          have hd2 : deadW { s with fetches := s.fetches.filter (fun x => x.id != fid) } i :=
            ⟨hdt, fun x hx => hdf x (List.mem_of_mem_filter hx), hdg⟩
          obtain ⟨ha, hb, hcnt⟩ := dead_pollTick _ f.sub i f.job data hfs hd2
          exact ⟨ha, hb, by rw [hcnt]; exact hc⟩
  | pollFail fid msg =>
      show deadW (stepW s (.pollFail fid msg)) i ∧ _
      cases hfind : s.fetches.find? (fun f => f.id == fid) with
      | none => simp only [stepW, hfind]; exact ⟨⟨hdt, hdf, hdg⟩, by trivial, hc⟩
      | some f =>
          simp only [stepW, hfind]
          have hfs : f.sub ≠ i := hdf f (List.mem_of_find?_eq_some hfind)
          have hd2 : deadW { s with fetches := s.fetches.filter (fun x => x.id != fid) } i :=
            ⟨hdt, fun x hx => hdf x (List.mem_of_mem_filter hx), hdg⟩
          obtain ⟨hct, hcf, hcg⟩ := deadW_clearPollTimer _ i hd2
          unfold webLogErr
          refine ⟨⟨hct, hcf, hcg⟩, ?_, ?_⟩
          · rw [logFor_append_ne _ _ _ hfs, clearPollTimer_log]
          · rw [clearPollTimer_subCount]; exact hc

theorem dead_runWFrom (s : WebState) (i : Nat) (evs : List WebEv)
    (hc : i < s.subCount) (hd : deadW s i) :
    logFor (runWFrom s evs).log i = logFor s.log i := by
  induction evs generalizing s with
  | nil => rfl
  | cons ev evs ih =>
      obtain ⟨hd2, hlog, hc2⟩ := dead_stepW s i ev hc hd
      have h := ih (stepW s ev) hc2 hd2
      calc logFor (runWFrom s (ev :: evs)).log i
          = logFor (runWFrom (stepW s ev) evs).log i := rfl
        _ = logFor (stepW s ev).log i := h
        _ = logFor s.log i := hlog

theorem dead_applyMini (s : MiniState) (j i : Nat) (act : Except Unit MiniAct)
    (hji : j ≠ i) (hd : deadM s i) :
    deadM (applyMini s j act) i ∧ logFor (applyMini s j act).log i = logFor s.log i ∧
      (applyMini s j act).subCount = s.subCount := by
  obtain ⟨hdr, hdt, hdp⟩ := hd
  cases act with
  | error e => exact ⟨⟨hdr, hdt, hdp⟩, rfl, rfl⟩
  | ok a =>
      cases a with
      | deliver n jid => exact ⟨⟨hdr, hdt, hdp⟩, logFor_append_ne _ _ _ hji, rfl⟩
      | failJob m jid => exact ⟨⟨hdr, hdt, hdp⟩, logFor_append_ne _ _ _ hji, rfl⟩
      | poll jid =>
          refine ⟨⟨hdr, ?_, hdp⟩, rfl, rfl⟩
          intro t ht
          rcases List.mem_append.mp ht with h | h
          · exact hdt t h
          · simp at h; rw [h]; exact hji
      | noJobId => exact ⟨⟨hdr, hdt, hdp⟩, logFor_append_ne _ _ _ hji, rfl⟩

theorem dead_stepM (s : MiniState) (i : Nat) (ev : MiniEv)
    (hc : i < s.subCount) (hd : deadM s i) :
    deadM (stepM s ev) i ∧ logFor (stepM s ev).log i = logFor s.log i ∧
      i < (stepM s ev).subCount := by
  obtain ⟨hdr, hdt, hdp⟩ := hd
  cases ev with
  | analyze =>
      show deadM (stepM s .analyze) i ∧ _
      simp only [stepM]
      refine ⟨⟨?_, hdt, hdp⟩, by trivial, by omega⟩
      intro g hg
      rcases List.mem_append.mp hg with h | h
      · exact hdr g h
      · simp at h; rw [h]; show s.subCount ≠ i; omega
  | reqOk fid data =>
      show deadM (stepM s (.reqOk fid data)) i ∧ _
      cases hfind : s.reqs.find? (fun g => g.id == fid) with
      | none => simp only [stepM, hfind]; exact ⟨⟨hdr, hdt, hdp⟩, by trivial, hc⟩
      | some g =>
          simp only [stepM, hfind]
          have hgs : g.sub ≠ i := hdr g (List.mem_of_find?_eq_some hfind)
          have hd2 : deadM { s with reqs := s.reqs.filter (fun x => x.id != fid) } i :=
            ⟨fun x hx => hdr x (List.mem_of_mem_filter hx), hdt, hdp⟩
          obtain ⟨ha, hb, hcnt⟩ := dead_applyMini _ g.sub i _ hgs hd2
          exact ⟨ha, hb, by rw [hcnt]; exact hc⟩
  | reqFail fid =>
      show deadM (stepM s (.reqFail fid)) i ∧ _
      cases hfind : s.reqs.find? (fun g => g.id == fid) with
      | none => simp only [stepM, hfind]; exact ⟨⟨hdr, hdt, hdp⟩, by trivial, hc⟩
      | some g =>
          simp only [stepM, hfind]
          have hgs : g.sub ≠ i := hdr g (List.mem_of_find?_eq_some hfind)
          exact ⟨⟨fun x hx => hdr x (List.mem_of_mem_filter hx), hdt, hdp⟩,
            logFor_append_ne _ _ _ hgs, hc⟩
  | timerFire tid =>
      show deadM (stepM s (.timerFire tid)) i ∧ _
      cases hfind : s.timers.find? (fun t => t.id == tid) with
      | none => simp only [stepM, hfind]; exact ⟨⟨hdr, hdt, hdp⟩, by trivial, hc⟩
      | some t =>
          simp only [stepM, hfind]
          have hts : t.sub ≠ i := hdt t (List.mem_of_find?_eq_some hfind)
          refine ⟨⟨hdr, fun x hx => hdt x (List.mem_of_mem_filter hx), ?_⟩, by trivial, hc⟩
          intro f hf
          rcases List.mem_append.mp hf with h | h
          · exact hdp f h
          · simp at h; rw [h]; exact hts
  | pollOk fid data =>
      show deadM (stepM s (.pollOk fid data)) i ∧ _
      cases hfind : s.polls.find? (fun f => f.id == fid) with
      | none => simp only [stepM, hfind]; exact ⟨⟨hdr, hdt, hdp⟩, by trivial, hc⟩
      | some f =>
          simp only [stepM, hfind]
          have hfs : f.sub ≠ i := hdp f (List.mem_of_find?_eq_some hfind)
          have hd2 : deadM { s with polls := s.polls.filter (fun x => x.id != fid) } i :=
            ⟨hdr, hdt, fun x hx => hdp x (List.mem_of_mem_filter hx)⟩
          obtain ⟨ha, hb, hcnt⟩ := dead_applyMini _ f.sub i _ hfs hd2
          exact ⟨ha, hb, by rw [hcnt]; exact hc⟩
  | pollFail fid =>
      show deadM (stepM s (.pollFail fid)) i ∧ _
      cases hfind : s.polls.find? (fun f => f.id == fid) with
      | none => simp only [stepM, hfind]; exact ⟨⟨hdr, hdt, hdp⟩, by trivial, hc⟩
      | some f =>
          simp only [stepM, hfind]
          have hfs : f.sub ≠ i := hdp f (List.mem_of_find?_eq_some hfind)
          exact ⟨⟨hdr, hdt, fun x hx => hdp x (List.mem_of_mem_filter hx)⟩,
            logFor_append_ne _ _ _ hfs, hc⟩

theorem dead_runMFrom (s : MiniState) (i : Nat) (evs : List MiniEv)
    (hc : i < s.subCount) (hd : deadM s i) :
    logFor (runMFrom s evs).log i = logFor s.log i := by
  induction evs generalizing s with
  | nil => rfl
  | cons ev evs ih =>
      obtain ⟨hd2, hlog, hc2⟩ := dead_stepM s i ev hc hd
      have h := ih (stepM s ev) hc2 hd2
      calc logFor (runMFrom s (ev :: evs)).log i
          = logFor (runMFrom (stepM s ev) evs).log i := rfl
        _ = logFor (stepM s ev).log i := h
        _ = logFor s.log i := hlog

theorem filter_filter_length_le {α : Type} (l : List α) (p q : α → Bool) :
    ((l.filter q).filter p).length ≤ (l.filter p).length :=
  ((l.filter_sublist (p := q)).filter p).length_le

theorem countP_split {α : Type} (p q : α → Bool) (l : List α) :
    l.countP p = l.countP (fun a => p a && q a) + l.countP (fun a => p a && !q a) := by
  induction l with
  | nil => rfl
  | cons x xs ih =>
      by_cases hp : p x = true <;> by_cases hq : q x = true <;>
        simp [List.countP_cons, hp, hq, ih] <;> omega

/-- Removing the elements matched by `q` (at least one of which, `a`,
also satisfies the counting predicate `p`) drops the `p`-count by at
least one. -/
theorem filter_remove_found {α : Type} (p q : α → Bool) (l : List α) (a : α)
    (ha : a ∈ l) (hqa : q a = true) (hpa : p a = true) :
    ((l.filter (fun x => !(q x))).filter p).length + 1 ≤ (l.filter p).length := by
  have h1 : ((l.filter (fun x => !(q x))).filter p).length
      = l.countP (fun x => p x && !(q x)) := by
    rw [← List.countP_eq_length_filter, List.countP_filter]
  have h2 : (l.filter p).length = l.countP p := (List.countP_eq_length_filter (p := p) l).symm
  have h3 : 0 < l.countP (fun x => p x && q x) :=
    List.countP_pos_iff.mpr ⟨a, ha, by simp [hpa, hqa]⟩
  have h4 := countP_split p q l
  omega

theorem subFetch_remove_count (l : List SubFetch) (fid i : Nat) (g : SubFetch)
    (hmem : g ∈ l) (hid : (g.id == fid) = true) (hsub : g.sub = i) :
    ((l.filter (fun x => x.id != fid)).filter (fun x => x.sub == i)).length + 1 ≤
      (l.filter (fun x => x.sub == i)).length := by
  have h := filter_remove_found (fun x => x.sub == i) (fun x => x.id == fid) l g hmem hid
    (by simp [hsub])
  simpa [bne] using h

theorem pollFetch_remove_count (l : List PollFetch) (fid i : Nat) (f : PollFetch)
    (hmem : f ∈ l) (hid : (f.id == fid) = true) (hsub : f.sub = i) :
    ((l.filter (fun x => x.id != fid)).filter (fun x => x.sub == i)).length + 1 ≤
      (l.filter (fun x => x.sub == i)).length := by
  have h := filter_remove_found (fun x => x.sub == i) (fun x => x.id == fid) l f hmem hid
    (by simp [hsub])
  simpa [bne] using h

theorem timer_remove_count (l : List Timer) (tid i : Nat) (t : Timer)
    (hmem : t ∈ l) (hid : (t.id == tid) = true) (hsub : t.sub = i) :
    ((l.filter (fun x => x.id != tid)).filter (fun x => x.sub == i)).length + 1 ≤
      (l.filter (fun x => x.sub == i)).length := by
  have h := filter_remove_found (fun x => x.sub == i) (fun x => x.id == tid) l t hmem hid
    (by simp [hsub])
  simpa [bne] using h

theorem filter_sub_eq_nil {α : Type} (l : List α) (sf : α → Nat) (c i : Nat)
    (hb : ∀ x ∈ l, sf x < c) (hic : c ≤ i) :
    (l.filter (fun x => sf x == i)).length = 0 := by
  rw [List.length_eq_zero, List.filter_eq_nil_iff]
  intro x hx
  have := hb x hx
  simp only [beq_iff_eq]
  omega

/-- Number of live artifacts (pending timer, in-flight poll, in-flight
submission request) belonging to submission `i` in the web client. -/
def liveW (s : WebState) (i : Nat) : Nat :=
  (s.timers.filter (fun t => t.sub == i)).length +
  (s.fetches.filter (fun f => f.sub == i)).length +
  (s.subFetches.filter (fun g => g.sub == i)).length

/-- Reachability invariant of the web client: every artifact and log
entry belongs to a started submission, and each submission owns at most
one artifact-or-outcome in total (its callback chain is linear: the
code never creates a second timer or request for a submission without
first consuming the previous one). -/
def InvW (s : WebState) : Prop :=
  (∀ t ∈ s.timers, t.sub < s.subCount) ∧ (∀ f ∈ s.fetches, f.sub < s.subCount) ∧
  (∀ g ∈ s.subFetches, g.sub < s.subCount) ∧ (∀ e ∈ s.log, e.sub < s.subCount) ∧
  (∀ i, liveW s i + (logFor s.log i).length ≤ 1)

/-- After consuming submission `j`'s single artifact the invariant holds
with slack: `j` owns nothing at all. -/
def InvSlackW (s : WebState) (j : Nat) : Prop :=
  InvW s ∧ j < s.subCount ∧ liveW s j + (logFor s.log j).length = 0

theorem InvW_clearPollTimer (s : WebState) (h : InvW s) : InvW (clearPollTimer s) := by
  obtain ⟨hT, hF, hG, hL, hC⟩ := h
  unfold clearPollTimer
  cases s.pollTimer with
  | none => exact ⟨hT, hF, hG, hL, hC⟩
  | some a =>
      refine ⟨fun t ht => hT t (List.mem_of_mem_filter ht), hF, hG, hL, ?_⟩
      intro i
      have h1 := filter_filter_length_le s.timers (fun t => t.sub == i) (fun x => x.id != a)
      have h2 := hC i
      simp only [liveW, logFor] at h2 ⊢
      omega

theorem InvSlackW_clearPollTimer (s : WebState) (j : Nat) (h : InvSlackW s j) :
    InvSlackW (clearPollTimer s) j := by
  obtain ⟨hi, hj, hz⟩ := h
  refine ⟨InvW_clearPollTimer s hi, ?_, ?_⟩
  · rw [clearPollTimer_subCount]; exact hj
  · unfold clearPollTimer
    cases s.pollTimer with
    | none => exact hz
    | some a =>
        have h5 := filter_filter_length_le s.timers (fun t => t.sub == j) (fun x => x.id != a)
        simp only [liveW, logFor] at hz ⊢
        omega

theorem InvW_webLogErr (s : WebState) (j : Nat) (m : JVal) (h : InvSlackW s j) :
    InvW (webLogErr s j m) := by
  obtain ⟨⟨hT, hF, hG, hL, hC⟩, hj, hz⟩ := h
  unfold webLogErr
  refine ⟨hT, hF, hG, ?_, ?_⟩
  · intro e he
    rcases List.mem_append.mp he with h1 | h1
    · exact hL e h1
    · simp at h1; rw [h1]; exact hj
  · intro i
    have hold := hC i
    by_cases hij : i = j
    · subst hij
      simp only [liveW, logFor, List.filter_append] at hz ⊢
      simp only [List.length_append]
      have : (([(⟨i, Outcome.failure m, s.subCount⟩ : LogEntry)]).filter
          (fun e => e.sub == i)).length ≤ 1 := by simp [List.filter_cons]
      omega
    · simp only [liveW, logFor, List.filter_append] at hold ⊢
      simp only [List.length_append]
      have : (([(⟨j, Outcome.failure m, s.subCount⟩ : LogEntry)]).filter
          (fun e => e.sub == i)).length = 0 := by
        rw [List.length_eq_zero, List.filter_eq_nil_iff]
        intro e he
        simp at he
        rw [he]
        simp only [beq_iff_eq]
        omega
      omega

theorem InvW_webDeliver (s : WebState) (j : Nat) (p : JVal) (h : InvSlackW s j) :
    InvW (webDeliver s j p) := by
  obtain ⟨⟨hT, hF, hG, hL, hC⟩, hj, hz⟩ := h
  unfold webDeliver
  refine ⟨hT, hF, hG, ?_, ?_⟩
  · intro e he
    rcases List.mem_append.mp he with h1 | h1
    · exact hL e h1
    · simp at h1; rw [h1]; exact hj
  · intro i
    have hold := hC i
    by_cases hij : i = j
    · subst hij
      simp only [liveW, logFor, List.filter_append] at hz ⊢
      simp only [List.length_append]
      have : (([(⟨i, Outcome.result p, s.subCount⟩ : LogEntry)]).filter
          (fun e => e.sub == i)).length ≤ 1 := by simp [List.filter_cons]
      omega
    · simp only [liveW, logFor, List.filter_append] at hold ⊢
      simp only [List.length_append]
      have : (([(⟨j, Outcome.result p, s.subCount⟩ : LogEntry)]).filter
          (fun e => e.sub == i)).length = 0 := by
        rw [List.length_eq_zero, List.filter_eq_nil_iff]
        intro e he
        simp at he
        rw [he]
        simp only [beq_iff_eq]
        omega
      omega

theorem InvW_pollJobSched (s : WebState) (j : Nat) (job : JVal) (h : InvSlackW s j) :
    InvW (pollJobSched s j job) := by
  obtain ⟨⟨hT, hF, hG, hL, hC⟩, hj, hz⟩ := h
  unfold pollJobSched
  refine ⟨?_, hF, hG, hL, ?_⟩
  · intro t ht
    rcases List.mem_append.mp ht with h1 | h1
    · exact hT t h1
    · simp at h1; rw [h1]; exact hj
  · intro i
    have hold := hC i
    by_cases hij : i = j
    · subst hij
      simp only [liveW, logFor, List.filter_append] at hz ⊢
      simp only [List.length_append]
      have : (([(⟨s.nextId, i, job, 1600⟩ : Timer)]).filter
          (fun t => t.sub == i)).length ≤ 1 := by simp [List.filter_cons]
      omega
    · simp only [liveW, logFor, List.filter_append] at hold ⊢
      simp only [List.length_append]
      have : (([(⟨s.nextId, j, job, 1600⟩ : Timer)]).filter
          (fun t => t.sub == i)).length = 0 := by
        rw [List.length_eq_zero, List.filter_eq_nil_iff]
        intro t ht
        simp at ht
        rw [ht]
        simp only [beq_iff_eq]
        omega
      omega

theorem InvW_click (s : WebState) (h : InvW s) : InvW (webClick s) := by
  have h1 : InvW (clearPollTimer { s with display := none }) :=
    InvW_clearPollTimer { s with display := none } h
  unfold webClick
  generalize clearPollTimer { s with display := none } = s1 at h1
  obtain ⟨hT, hF, hG, hL, hC⟩ := h1
  refine ⟨?_, ?_, ?_, ?_, ?_⟩
  · intro t ht
    have := hT t ht
    show t.sub < s1.subCount + 1
    omega
  · intro f hf
    have := hF f hf
    show f.sub < s1.subCount + 1
    omega
  · intro g hg
    rcases List.mem_append.mp hg with h2 | h2
    · have := hG g h2
      show g.sub < s1.subCount + 1
      omega
    · simp at h2
      rw [h2]
      show s1.subCount < s1.subCount + 1
      omega
  · intro e he
    have := hL e he
    show e.sub < s1.subCount + 1
    omega
  · intro i
    have hold := hC i
    by_cases hic : i = s1.subCount
    · subst hic
      have z1 := filter_sub_eq_nil s1.timers (fun t => t.sub) s1.subCount s1.subCount hT (le_refl _)
      have z2 := filter_sub_eq_nil s1.fetches (fun f => f.sub) s1.subCount s1.subCount hF (le_refl _)
      have z3 := filter_sub_eq_nil s1.subFetches (fun g => g.sub) s1.subCount s1.subCount hG (le_refl _)
      have z4 := filter_sub_eq_nil s1.log (fun e => e.sub) s1.subCount s1.subCount hL (le_refl _)
      simp only [liveW, logFor, List.filter_append, List.length_append] at z1 z2 z3 z4 ⊢
      have z5 : (([(⟨s1.nextId, s1.subCount⟩ : SubFetch)]).filter
          (fun g => g.sub == s1.subCount)).length ≤ 1 := by simp [List.filter_cons]
      omega
    · simp only [liveW, logFor, List.filter_append, List.length_append] at hold ⊢
      have z5 : (([(⟨s1.nextId, s1.subCount⟩ : SubFetch)]).filter
          (fun g => g.sub == i)).length = 0 := by
        rw [List.length_eq_zero, List.filter_eq_nil_iff]
        intro g hg
        simp at hg
        rw [hg]
        simp only [beq_iff_eq]
        omega
      omega

theorem InvW_addFetch (s : WebState) (j : Nat) (job : JVal) (h : InvSlackW s j) :
    InvW { s with fetches := s.fetches ++ [⟨s.nextId, j, job⟩], nextId := s.nextId + 1 } := by
  obtain ⟨⟨hT, hF, hG, hL, hC⟩, hj, hz⟩ := h
  refine ⟨hT, ?_, hG, hL, ?_⟩
  · intro f hf
    rcases List.mem_append.mp hf with h1 | h1
    · exact hF f h1
    · simp at h1; rw [h1]; exact hj
  · intro i
    have hold := hC i
    by_cases hij : i = j
    · subst hij
      simp only [liveW, logFor, List.filter_append, List.length_append] at hz ⊢
      have z5 : (([(⟨s.nextId, i, job⟩ : PollFetch)]).filter
          (fun f => f.sub == i)).length ≤ 1 := by simp [List.filter_cons]
      omega
    · simp only [liveW, logFor, List.filter_append, List.length_append] at hold ⊢
      have z5 : (([(⟨s.nextId, j, job⟩ : PollFetch)]).filter
          (fun f => f.sub == i)).length = 0 := by
        rw [List.length_eq_zero, List.filter_eq_nil_iff]
        intro f hf
        simp at hf
        rw [hf]
        simp only [beq_iff_eq]
        omega
      omega

/-- Consuming the found submission request leaves the invariant with
slack for its submission. -/
theorem InvSlackW_consume_subFetch (s : WebState) (fid : Nat) (g : SubFetch)
    (hfind : s.subFetches.find? (fun x => x.id == fid) = some g) (h : InvW s) :
    InvSlackW { s with subFetches := s.subFetches.filter (fun x => x.id != fid) } g.sub := by
  obtain ⟨hT, hF, hG, hL, hC⟩ := h
  have hmem : g ∈ s.subFetches := List.mem_of_find?_eq_some hfind
  have hid : (g.id == fid) = true := by simpa using List.find?_some hfind
  have hrm := subFetch_remove_count s.subFetches fid g.sub g hmem hid rfl
  have hj : g.sub < s.subCount := hG g hmem
  refine ⟨⟨hT, hF, fun x hx => hG x (List.mem_of_mem_filter hx), hL, ?_⟩, hj, ?_⟩
  · intro i
    have hold := hC i
    have hle := filter_filter_length_le s.subFetches (fun x => x.sub == i) (fun x => x.id != fid)
    simp only [liveW, logFor] at hold ⊢
    omega
  · have hold := hC g.sub
    simp only [liveW, logFor] at hold ⊢
    omega

theorem InvSlackW_consume_fetch (s : WebState) (fid : Nat) (f : PollFetch)
    (hfind : s.fetches.find? (fun x => x.id == fid) = some f) (h : InvW s) :
    InvSlackW { s with fetches := s.fetches.filter (fun x => x.id != fid) } f.sub := by
  obtain ⟨hT, hF, hG, hL, hC⟩ := h
  have hmem : f ∈ s.fetches := List.mem_of_find?_eq_some hfind
  have hid : (f.id == fid) = true := by simpa using List.find?_some hfind
  have hrm := pollFetch_remove_count s.fetches fid f.sub f hmem hid rfl
  have hj : f.sub < s.subCount := hF f hmem
  refine ⟨⟨hT, fun x hx => hF x (List.mem_of_mem_filter hx), hG, hL, ?_⟩, hj, ?_⟩
  · intro i
    have hold := hC i
    have hle := filter_filter_length_le s.fetches (fun x => x.sub == i) (fun x => x.id != fid)
    simp only [liveW, logFor] at hold ⊢
    omega
  · have hold := hC f.sub
    simp only [liveW, logFor] at hold ⊢
    omega

theorem InvSlackW_consume_timer (s : WebState) (tid : Nat) (t : Timer)
    (hfind : s.timers.find? (fun x => x.id == tid) = some t) (h : InvW s) :
    InvSlackW { s with timers := s.timers.filter (fun x => x.id != tid) } t.sub := by
  obtain ⟨hT, hF, hG, hL, hC⟩ := h
  have hmem : t ∈ s.timers := List.mem_of_find?_eq_some hfind
  have hid : (t.id == tid) = true := by simpa using List.find?_some hfind
  have hrm := timer_remove_count s.timers tid t.sub t hmem hid rfl
  have hj : t.sub < s.subCount := hT t hmem
  refine ⟨⟨fun x hx => hT x (List.mem_of_mem_filter hx), hF, hG, hL, ?_⟩, hj, ?_⟩
  · intro i
    have hold := hC i
    have hle := filter_filter_length_le s.timers (fun x => x.sub == i) (fun x => x.id != tid)
    simp only [liveW, logFor] at hold ⊢
    omega
  · have hold := hC t.sub
    simp only [liveW, logFor] at hold ⊢
    omega

theorem InvW_handleJobOk (s : WebState) (j : Nat) (data : JVal) (h : InvSlackW s j) :
    InvW (handleJobOk s j data) := by
  unfold handleJobOk
  split_ifs with h1 h2 h3
  · exact InvW_webLogErr s j _ h
  · exact InvW_pollJobSched s j _ h
  · exact h.1
  · exact InvW_webDeliver s j _ h

theorem InvW_pollTick (s : WebState) (j : Nat) (job data : JVal) (h : InvSlackW s j) :
    InvW (pollTick s j job data) := by
  unfold pollTick
  split_ifs with h1 h2 h3
  · exact InvW_webLogErr _ j _ (InvSlackW_clearPollTimer s j h)
  · exact InvW_webDeliver _ j _ (InvSlackW_clearPollTimer s j h)
  · exact InvW_webLogErr _ j _ (InvSlackW_clearPollTimer s j h)
  · exact InvW_pollJobSched s j _ h

theorem InvW_step (s : WebState) (ev : WebEv) (h : InvW s) : InvW (stepW s ev) := by
  cases ev with
  | click => exact InvW_click s h
  | subOk fid data =>
      show InvW (stepW s (.subOk fid data))
      cases hfind : s.subFetches.find? (fun g => g.id == fid) with
      | none => simp only [stepW, hfind]; exact h
      | some g =>
          simp only [stepW, hfind]
          exact InvW_handleJobOk _ g.sub data (InvSlackW_consume_subFetch s fid g hfind h)
  | subFail fid msg =>
      show InvW (stepW s (.subFail fid msg))
      cases hfind : s.subFetches.find? (fun g => g.id == fid) with
      | none => simp only [stepW, hfind]; exact h
      | some g =>
          simp only [stepW, hfind]
          exact InvW_webLogErr _ g.sub _ (InvSlackW_consume_subFetch s fid g hfind h)
  | timerFire tid =>
      show InvW (stepW s (.timerFire tid))
      cases hfind : s.timers.find? (fun t => t.id == tid) with
      | none => simp only [stepW, hfind]; exact h
      | some t =>
          simp only [stepW, hfind]
          exact InvW_addFetch _ t.sub t.job (InvSlackW_consume_timer s tid t hfind h)
  | pollOk fid data =>
      show InvW (stepW s (.pollOk fid data))
      cases hfind : s.fetches.find? (fun f => f.id == fid) with
      | none => simp only [stepW, hfind]; exact h
      | some f =>
          simp only [stepW, hfind]
          exact InvW_pollTick _ f.sub f.job data (InvSlackW_consume_fetch s fid f hfind h)
  | pollFail fid msg =>
      show InvW (stepW s (.pollFail fid msg))
      cases hfind : s.fetches.find? (fun f => f.id == fid) with
      | none => simp only [stepW, hfind]; exact h
      | some f =>
          simp only [stepW, hfind]
          exact InvW_webLogErr _ f.sub _
            (InvSlackW_clearPollTimer _ f.sub (InvSlackW_consume_fetch s fid f hfind h))

theorem InvW_runWFrom (s : WebState) (evs : List WebEv) (h : InvW s) :
    InvW (runWFrom s evs) := by
  induction evs generalizing s with
  | nil => exact h
  | cons ev evs ih => exact ih (stepW s ev) (InvW_step s ev h)

theorem InvW_init : InvW initW := by
  refine ⟨?_, ?_, ?_, ?_, ?_⟩ <;> intro x <;> simp [initW, liveW, logFor]

theorem InvW_run (evs : List WebEv) : InvW (runW evs) :=
  InvW_runWFrom initW evs InvW_init

/-- Number of live artifacts belonging to submission `i` in the
miniprogram page. -/
def liveM (s : MiniState) (i : Nat) : Nat :=
  (s.reqs.filter (fun g => g.sub == i)).length +
  (s.timers.filter (fun t => t.sub == i)).length +
  (s.polls.filter (fun f => f.sub == i)).length

/-- Reachability invariant of the miniprogram page: each submission's
callback chain is linear, so it owns at most one live artifact or
logged outcome. -/
def InvM (s : MiniState) : Prop :=
  (∀ g ∈ s.reqs, g.sub < s.subCount) ∧ (∀ t ∈ s.timers, t.sub < s.subCount) ∧
  (∀ f ∈ s.polls, f.sub < s.subCount) ∧ (∀ e ∈ s.log, e.sub < s.subCount) ∧
  (∀ i, liveM s i + (logFor s.log i).length ≤ 1)

def InvSlackM (s : MiniState) (j : Nat) : Prop :=
  InvM s ∧ j < s.subCount ∧ liveM s j + (logFor s.log j).length = 0

theorem InvM_addLog (s : MiniState) (j : Nat) (o : Outcome) (st : JVal) (h : InvSlackM s j) :
    InvM { s with log := s.log ++ [⟨j, o, s.subCount⟩], statusText := st, loading := false } := by
  obtain ⟨⟨hR, hT, hP, hL, hC⟩, hj, hz⟩ := h
  refine ⟨hR, hT, hP, ?_, ?_⟩
  · intro e he
    rcases List.mem_append.mp he with h1 | h1
    · exact hL e h1
    · simp at h1; rw [h1]; exact hj
  · intro i
    have hold := hC i
    by_cases hij : i = j
    · subst hij
      simp only [liveM, logFor, List.filter_append, List.length_append] at hz ⊢
      have z5 : (([(⟨i, o, s.subCount⟩ : LogEntry)]).filter
          (fun e => e.sub == i)).length ≤ 1 := by simp [List.filter_cons]
      omega
    · simp only [liveM, logFor, List.filter_append, List.length_append] at hold ⊢
      have z5 : (([(⟨j, o, s.subCount⟩ : LogEntry)]).filter
          (fun e => e.sub == i)).length = 0 := by
        rw [List.length_eq_zero, List.filter_eq_nil_iff]
        intro e he
        simp at he
        rw [he]
        simp only [beq_iff_eq]
        omega
      omega

theorem InvM_addTimer (s : MiniState) (j : Nat) (jid : JVal) (h : InvSlackM s j) :
    InvM { s with statusText := .str "分析进行中...", loading := true,
                  timers := s.timers ++ [⟨s.nextId, j, jid, 1500⟩], nextId := s.nextId + 1 } := by
  obtain ⟨⟨hR, hT, hP, hL, hC⟩, hj, hz⟩ := h
  refine ⟨hR, ?_, hP, hL, ?_⟩
  · intro t ht
    rcases List.mem_append.mp ht with h1 | h1
    · exact hT t h1
    · simp at h1; rw [h1]; exact hj
  · intro i
    have hold := hC i
    by_cases hij : i = j
    · subst hij
      simp only [liveM, logFor, List.filter_append, List.length_append] at hz ⊢
      have z5 : (([(⟨s.nextId, i, jid, 1500⟩ : Timer)]).filter
          (fun t => t.sub == i)).length ≤ 1 := by simp [List.filter_cons]
      omega
    · simp only [liveM, logFor, List.filter_append, List.length_append] at hold ⊢
      have z5 : (([(⟨s.nextId, j, jid, 1500⟩ : Timer)]).filter
          (fun t => t.sub == i)).length = 0 := by
        rw [List.length_eq_zero, List.filter_eq_nil_iff]
        intro t ht
        simp at ht
        rw [ht]
        simp only [beq_iff_eq]
        omega
      omega

theorem InvM_addPoll (s : MiniState) (j : Nat) (job : JVal) (h : InvSlackM s j) :
    InvM { s with polls := s.polls ++ [⟨s.nextId, j, job⟩], nextId := s.nextId + 1 } := by
  obtain ⟨⟨hR, hT, hP, hL, hC⟩, hj, hz⟩ := h
  refine ⟨hR, hT, ?_, hL, ?_⟩
  · intro f hf
    rcases List.mem_append.mp hf with h1 | h1
    · exact hP f h1
    · simp at h1; rw [h1]; exact hj
  · intro i
    have hold := hC i
    by_cases hij : i = j
    · subst hij
      simp only [liveM, logFor, List.filter_append, List.length_append] at hz ⊢
      have z5 : (([(⟨s.nextId, i, job⟩ : PollFetch)]).filter
          (fun f => f.sub == i)).length ≤ 1 := by simp [List.filter_cons]
      omega
    · simp only [liveM, logFor, List.filter_append, List.length_append] at hold ⊢
      have z5 : (([(⟨s.nextId, j, job⟩ : PollFetch)]).filter
          (fun f => f.sub == i)).length = 0 := by
        rw [List.length_eq_zero, List.filter_eq_nil_iff]
        intro f hf
        simp at hf
        rw [hf]
        simp only [beq_iff_eq]
        omega
      omega

theorem InvM_applyMini (s : MiniState) (j : Nat) (act : Except Unit MiniAct)
    (h : InvSlackM s j) : InvM (applyMini s j act) := by
  cases act with
  | error e => exact h.1
  | ok a =>
      cases a with
      | deliver n jid => exact InvM_addLog s j (.result n) (.str "分析完成") h
      | failJob m jid => exact InvM_addLog s j (.failure m) m h
      | poll jid => exact InvM_addTimer s j jid h
      | noJobId => exact InvM_addLog s j (.failure (.str "未返回任务 ID")) (.str "未返回任务 ID") h

theorem InvSlackM_consume_req (s : MiniState) (fid : Nat) (g : SubFetch)
    (hfind : s.reqs.find? (fun x => x.id == fid) = some g) (h : InvM s) :
    InvSlackM { s with reqs := s.reqs.filter (fun x => x.id != fid) } g.sub := by
  obtain ⟨hR, hT, hP, hL, hC⟩ := h
  have hmem : g ∈ s.reqs := List.mem_of_find?_eq_some hfind
  have hid : (g.id == fid) = true := by simpa using List.find?_some hfind
  have hrm := subFetch_remove_count s.reqs fid g.sub g hmem hid rfl
  have hj : g.sub < s.subCount := hR g hmem
  refine ⟨⟨fun x hx => hR x (List.mem_of_mem_filter hx), hT, hP, hL, ?_⟩, hj, ?_⟩
  · intro i
    have hold := hC i
    have hle := filter_filter_length_le s.reqs (fun x => x.sub == i) (fun x => x.id != fid)
    simp only [liveM, logFor] at hold ⊢
    omega
  · have hold := hC g.sub
    simp only [liveM, logFor] at hold ⊢
    omega

theorem InvSlackM_consume_timer (s : MiniState) (tid : Nat) (t : Timer)
    (hfind : s.timers.find? (fun x => x.id == tid) = some t) (h : InvM s) :
    InvSlackM { s with timers := s.timers.filter (fun x => x.id != tid) } t.sub := by
  obtain ⟨hR, hT, hP, hL, hC⟩ := h
  have hmem : t ∈ s.timers := List.mem_of_find?_eq_some hfind
  have hid : (t.id == tid) = true := by simpa using List.find?_some hfind
  have hrm := timer_remove_count s.timers tid t.sub t hmem hid rfl
  have hj : t.sub < s.subCount := hT t hmem
  refine ⟨⟨hR, fun x hx => hT x (List.mem_of_mem_filter hx), hP, hL, ?_⟩, hj, ?_⟩
  · intro i
    have hold := hC i
    have hle := filter_filter_length_le s.timers (fun x => x.sub == i) (fun x => x.id != tid)
    simp only [liveM, logFor] at hold ⊢
    omega
  · have hold := hC t.sub
    simp only [liveM, logFor] at hold ⊢
    omega

theorem InvSlackM_consume_poll (s : MiniState) (fid : Nat) (f : PollFetch)
    (hfind : s.polls.find? (fun x => x.id == fid) = some f) (h : InvM s) :
    InvSlackM { s with polls := s.polls.filter (fun x => x.id != fid) } f.sub := by
  obtain ⟨hR, hT, hP, hL, hC⟩ := h
  have hmem : f ∈ s.polls := List.mem_of_find?_eq_some hfind
  have hid : (f.id == fid) = true := by simpa using List.find?_some hfind
  have hrm := pollFetch_remove_count s.polls fid f.sub f hmem hid rfl
  have hj : f.sub < s.subCount := hP f hmem
  refine ⟨⟨hR, hT, fun x hx => hP x (List.mem_of_mem_filter hx), hL, ?_⟩, hj, ?_⟩
  · intro i
    have hold := hC i
    have hle := filter_filter_length_le s.polls (fun x => x.sub == i) (fun x => x.id != fid)
    simp only [liveM, logFor] at hold ⊢
    omega
  · have hold := hC f.sub
    simp only [liveM, logFor] at hold ⊢
    omega

theorem InvM_step (s : MiniState) (ev : MiniEv) (h : InvM s) : InvM (stepM s ev) := by
  obtain ⟨hR, hT, hP, hL, hC⟩ := h
  cases ev with
  | analyze =>
      show InvM (stepM s .analyze)
      simp only [stepM]
      refine ⟨?_, ?_, ?_, ?_, ?_⟩
      · intro g hg
        rcases List.mem_append.mp hg with h1 | h1
        · have := hR g h1; show g.sub < s.subCount + 1; omega
        · simp at h1; rw [h1]; show s.subCount < s.subCount + 1; omega
      · intro t ht; have := hT t ht; show t.sub < s.subCount + 1; omega
      · intro f hf; have := hP f hf; show f.sub < s.subCount + 1; omega
      · intro e he; have := hL e he; show e.sub < s.subCount + 1; omega
      · intro i
        have hold := hC i
        by_cases hic : i = s.subCount
        · subst hic
          have z1 := filter_sub_eq_nil s.reqs (fun g => g.sub) s.subCount s.subCount hR (le_refl _)
          have z2 := filter_sub_eq_nil s.timers (fun t => t.sub) s.subCount s.subCount hT (le_refl _)
          have z3 := filter_sub_eq_nil s.polls (fun f => f.sub) s.subCount s.subCount hP (le_refl _)
          have z4 := filter_sub_eq_nil s.log (fun e => e.sub) s.subCount s.subCount hL (le_refl _)
          simp only [liveM, logFor, List.filter_append, List.length_append] at z1 z2 z3 z4 ⊢
          have z5 : (([(⟨s.nextId, s.subCount⟩ : SubFetch)]).filter
              (fun g => g.sub == s.subCount)).length ≤ 1 := by simp [List.filter_cons]
          omega
        · simp only [liveM, logFor, List.filter_append, List.length_append] at hold ⊢
          have z5 : (([(⟨s.nextId, s.subCount⟩ : SubFetch)]).filter
              (fun g => g.sub == i)).length = 0 := by
            rw [List.length_eq_zero, List.filter_eq_nil_iff]
            intro g hg
            simp at hg
            rw [hg]
            simp only [beq_iff_eq]
            omega
          omega
  | reqOk fid data =>
      show InvM (stepM s (.reqOk fid data))
      cases hfind : s.reqs.find? (fun g => g.id == fid) with
      | none => simp only [stepM, hfind]; exact ⟨hR, hT, hP, hL, hC⟩
      | some g =>
          simp only [stepM, hfind]
          exact InvM_applyMini _ g.sub _ (InvSlackM_consume_req s fid g hfind ⟨hR, hT, hP, hL, hC⟩)
  | reqFail fid =>
      show InvM (stepM s (.reqFail fid))
      cases hfind : s.reqs.find? (fun g => g.id == fid) with
      | none => simp only [stepM, hfind]; exact ⟨hR, hT, hP, hL, hC⟩
      | some g =>
          simp only [stepM, hfind]
          exact InvM_addLog _ g.sub (.failure (.str "接口请求失败")) (.str "接口请求失败")
            (InvSlackM_consume_req s fid g hfind ⟨hR, hT, hP, hL, hC⟩)
  | timerFire tid =>
      show InvM (stepM s (.timerFire tid))
      cases hfind : s.timers.find? (fun t => t.id == tid) with
      | none => simp only [stepM, hfind]; exact ⟨hR, hT, hP, hL, hC⟩
      | some t =>
          simp only [stepM, hfind]
          exact InvM_addPoll _ t.sub t.job (InvSlackM_consume_timer s tid t hfind ⟨hR, hT, hP, hL, hC⟩)
  | pollOk fid data =>
      show InvM (stepM s (.pollOk fid data))
      cases hfind : s.polls.find? (fun f => f.id == fid) with
      | none => simp only [stepM, hfind]; exact ⟨hR, hT, hP, hL, hC⟩
      | some f =>
          simp only [stepM, hfind]
          exact InvM_applyMini _ f.sub _ (InvSlackM_consume_poll s fid f hfind ⟨hR, hT, hP, hL, hC⟩)
  | pollFail fid =>
      show InvM (stepM s (.pollFail fid))
      cases hfind : s.polls.find? (fun f => f.id == fid) with
      | none => simp only [stepM, hfind]; exact ⟨hR, hT, hP, hL, hC⟩
      | some f =>
          simp only [stepM, hfind]
          exact InvM_addLog _ f.sub (.failure (.str "轮询失败")) (.str "轮询失败")
            (InvSlackM_consume_poll s fid f hfind ⟨hR, hT, hP, hL, hC⟩)

theorem InvM_runMFrom (s : MiniState) (evs : List MiniEv) (h : InvM s) :
    InvM (runMFrom s evs) := by
  induction evs generalizing s with
  | nil => exact h
  | cons ev evs ih => exact ih (stepM s ev) (InvM_step s ev h)

theorem InvM_init : InvM initM := by
  refine ⟨?_, ?_, ?_, ?_, ?_⟩ <;> intro x <;> simp [initM, liveM, logFor]

theorem InvM_run (evs : List MiniEv) : InvM (runM evs) :=
  InvM_runMFrom initM evs InvM_init

/-- Total image of `normalizeHit` on non-null, non-undefined items. -/
def normHitD (item : JVal) : JVal :=
  .obj (objSet (objSet (objSet (spreadFields item) "severityLabel"
    (jsOr (severityLookup (getPropD item "severity")) (getPropD item "severity")))
    "items" (jsOr (getPropD item "items") (.arr [])))
    "evidences" (jsOr (getPropD item "evidences") (.arr [])))

/-- A category value `normalizeResult` maps without throwing: falsy
(defaulted to `[]`) or an array whose items are not `null`/`undefined`. -/
def goodItems (v : JVal) : Bool :=
  if truthy v then
    match v with
    | .arr xs => xs.all (fun x => !x.isNullOrUndef)
    | _ => false
  else true

/-- Total image of the per-category mapping on good category values. -/
def normItemsD (v : JVal) : JVal :=
  match jsOr v (.arr []) with
  | .arr xs => .arr (xs.map normHitD)
  | _ => JVal.undef

/-- A `categories` value the normalizer fully absorbs: an object all of
whose values are good category values (after the `|| {}` defaulting). -/
def goodCats (v : JVal) : Bool :=
  match v with
  | .obj fs => fs.all (fun p => goodItems p.2)
  | _ => !truthy v

/-- Payloads on which `normalizeResult` provably does not throw:
anything but `null` whose (defaulted) `categories` is an object of good
category values. -/
def goodPayload (r : JVal) : Bool :=
  match r with
  | .null => false
  | v => goodCats (jsOr (getPropD v "categories") (.obj []))

def isHitList : JVal → Bool
  | .arr hs => hs.all JVal.isObj
  | _ => false

/-- A well-formed canonical result: a two-field object whose
`categories` maps names to arrays of hit objects. -/
def wellFormedResult : JVal → Bool
  | .obj [("summary", _), ("categories", .obj cats)] => cats.all (fun p => isHitList p.2)
  | _ => false

theorem normalizeHit_eq (item : JVal) (h : item.isNullOrUndef = false) :
    normalizeHit item = .ok (normHitD item) := by
  unfold normalizeHit normHitD
  rw [h]
  simp

theorem normHitD_isObj (item : JVal) : (normHitD item).isObj = true := rfl

theorem mapM_normalizeHit (xs : List JVal) (h : xs.all (fun x => !x.isNullOrUndef) = true) :
    xs.mapM normalizeHit = .ok (xs.map normHitD) := by
  induction xs with
  | nil => rfl
  | cons x xs ih =>
      simp only [List.all_cons, Bool.and_eq_true] at h
      obtain ⟨hx, hxs⟩ := h
      have hx2 : x.isNullOrUndef = false := by
        cases hb : x.isNullOrUndef
        · rfl
        · rw [hb] at hx; simp at hx
      rw [List.mapM_cons, normalizeHit_eq x hx2, ih hxs]
      rfl

theorem bool_not_true_of_ne {b : Bool} (h : ¬ b = true) : b = false := by
  cases b
  · rfl
  · exact absurd rfl h

theorem goodItems_arr (v : JVal) (h : goodItems v = true) :
    ∃ xs, jsOr v (.arr []) = .arr xs ∧ xs.all (fun x => !x.isNullOrUndef) = true := by
  unfold goodItems at h
  by_cases ht : truthy v = true
  · rw [ht] at h
    simp only [if_true] at h
    cases v with
    | arr xs => exact ⟨xs, by simp [jsOr, ht], h⟩
    | null => simp [truthy] at ht
    | undef => simp [truthy] at ht
    | bool b => simp at h
    | num n => simp at h
    | str s => simp at h
    | obj fs => simp at h
  · have ht2 : truthy v = false := bool_not_true_of_ne ht
    exact ⟨[], by simp [jsOr, ht2], rfl⟩

theorem normalizeItems_eq (v : JVal) (h : goodItems v = true) :
    normalizeItems v = .ok (normItemsD v) := by
  obtain ⟨xs, hxs, hall⟩ := goodItems_arr v h
  unfold normalizeItems normItemsD jsArrayMap
  rw [hxs]
  show Except.map JVal.arr (xs.mapM normalizeHit) = Except.ok (JVal.arr (xs.map normHitD))
  rw [mapM_normalizeHit xs hall]
  rfl

theorem normItemsD_isHitList (v : JVal) (h : goodItems v = true) :
    isHitList (normItemsD v) = true := by
  obtain ⟨xs, hxs, hall⟩ := goodItems_arr v h
  unfold normItemsD isHitList
  rw [hxs]
  show (xs.map normHitD).all JVal.isObj = true
  simp only [List.all_eq_true]
  intro y hy
  rcases List.mem_map.mp hy with ⟨x, hx, hxy⟩
  rw [← hxy]
  exact normHitD_isObj x

theorem objSet_all (pr : String × JVal → Bool) (fs : List (String × JVal)) (k : String) (v : JVal)
    (hall : fs.all pr = true) (hv : pr (k, v) = true) :
    (objSet fs k v).all pr = true := by
  unfold objSet
  split_ifs with h
  · simp only [List.all_eq_true] at hall ⊢
    intro p hp
    rcases List.mem_map.mp hp with ⟨q, hq, hqp⟩
    cases hqk : (q.1 == k) with
    | true => rw [← hqp]; simp only [hqk, if_true]; exact hv
    | false => rw [← hqp]; simp only [hqk, Bool.false_eq_true, if_false]; exact hall q hq
  · simp [List.all_append, hall, hv]

theorem goodCats_getProp (cfs : List (String × JVal))
    (h : cfs.all (fun p => goodItems p.2) = true) (k : String) :
    goodItems (getPropD (.obj cfs) k) = true := by
  show goodItems (((cfs.find? (fun p => p.1 == k)).map Prod.snd).getD .undef) = true
  cases hf : cfs.find? (fun p => p.1 == k) with
  | none => rfl
  | some p =>
      have hmem := List.mem_of_find?_eq_some hf
      show goodItems p.2 = true
      exact (List.all_eq_true.mp h) p hmem

theorem goodCats_obj (v : JVal) (h : goodCats (jsOr v (.obj [])) = true) :
    ∃ cfs, jsOr v (.obj []) = .obj cfs ∧ cfs.all (fun p => goodItems p.2) = true := by
  unfold jsOr at h ⊢
  by_cases ht : truthy v = true
  · rw [ht] at h ⊢
    simp only [if_true] at h ⊢
    cases v with
    | obj fs => exact ⟨fs, rfl, h⟩
    | null => simp [truthy] at ht
    | undef => simp [truthy] at ht
    | bool b => unfold goodCats at h; rw [ht] at h; simp at h
    | num n => unfold goodCats at h; rw [ht] at h; simp at h
    | str s => unfold goodCats at h; rw [ht] at h; simp at h
    | arr xs => unfold goodCats at h; rw [ht] at h; simp at h
  · have ht2 : truthy v = false := bool_not_true_of_ne ht
    rw [ht2] at h ⊢
    simp only [Bool.false_eq_true, if_false] at h ⊢
    exact ⟨[], rfl, rfl⟩

theorem normalizeCatsFrom_ok (cats : JVal)
    (hg : ∀ k, goodItems (getPropD cats k) = true) :
    ∀ (keys : List String) (acc : List (String × JVal)),
    acc.all (fun p => isHitList p.2) = true →
    ∃ out, normalizeCatsFrom cats acc keys = .ok out ∧
      out.all (fun p => isHitList p.2) = true := by
  intro keys
  induction keys with
  | nil => intro acc hacc; exact ⟨acc, rfl, hacc⟩
  | cons k ks ih =>
      intro acc hacc
      have h1 := normalizeItems_eq (getPropD cats k) (hg k)
      unfold normalizeCatsFrom
      rw [h1]
      show ∃ out, normalizeCatsFrom cats (objSet acc k (normItemsD (getPropD cats k))) ks
          = .ok out ∧ out.all (fun p => isHitList p.2) = true
      exact ih _ (objSet_all _ acc k _ hacc (normItemsD_isHitList _ (hg k)))

/-- Core totality lemma: on a non-null, non-undefined payload with good
categories, `normalizeResult` succeeds with the canonical two-field
shape. -/
theorem normalize_core (r : JVal) (hnn : r.isNullOrUndef = false)
    (h : goodCats (jsOr (getPropD r "categories") (.obj [])) = true) :
    ∃ cfs, normalizeResult r = .ok (.obj
      [("summary", jsOr (getPropD r "summary") (.obj [])), ("categories", .obj cfs)]) ∧
      cfs.all (fun p => isHitList p.2) = true := by
  have hu : r.isUndef = false := by
    cases r <;> simp_all [JVal.isUndef, JVal.isNullOrUndef]
  obtain ⟨cfs, hcfs, hall⟩ := goodCats_obj _ h
  have hg := fun k => goodCats_getProp cfs hall k
  obtain ⟨out, hout, houtall⟩ :=
    normalizeCatsFrom_ok (.obj cfs) (by rw [← hcfs] at hg ⊢; exact hg) (cfs.map Prod.fst) [] rfl
  refine ⟨out, ?_, houtall⟩
  unfold normalizeResult
  rw [hu]
  simp only [Bool.false_eq_true, if_false]
  rw [hnn]
  simp only [Bool.false_eq_true, if_false]
  rw [hcfs]
  show ((match objectKeys (.obj cfs) with
    | Except.error e => Except.error e
    | Except.ok keys =>
        (match normalizeCatsFrom (.obj cfs) [] keys with
        | Except.error e => Except.error e
        | Except.ok normalized =>
            Except.ok (.obj [("summary", jsOr (getPropD r "summary") (.obj [])),
                       ("categories", .obj normalized)]) : Except Unit JVal)) : Except Unit JVal) = _
  have hk : objectKeys (.obj cfs) = .ok (cfs.map Prod.fst) := rfl
  rw [hk]
  show ((match normalizeCatsFrom (.obj cfs) [] (cfs.map Prod.fst) with
    | Except.error e => Except.error e
    | Except.ok normalized =>
        Except.ok (.obj [("summary", jsOr (getPropD r "summary") (.obj [])),
                   ("categories", .obj normalized)]) : Except Unit JVal)) = _
  rw [hout]

theorem objSet_append (fs : List (String × JVal)) (k : String) (v : JVal)
    (h : ∀ p ∈ fs, p.1 ≠ k) : objSet fs k v = fs ++ [(k, v)] := by
  have hany : fs.any (fun p => p.1 == k) = false := by
    rw [List.any_eq_false]
    intro p hp
    simpa using h p hp
  unfold objSet
  rw [hany]
  simp

theorem getPropD_obj_nodup (fs : List (String × JVal)) (p : String × JVal)
    (hnd : (fs.map Prod.fst).Nodup) (hp : p ∈ fs) :
    getPropD (.obj fs) p.1 = p.2 := by
  show ((fs.find? (fun q => q.1 == p.1)).map Prod.snd).getD .undef = p.2
  induction fs with
  | nil => simp at hp
  | cons q qs ih =>
      rcases List.mem_cons.mp hp with hq | hmem
      · rw [hq]
        simp [List.find?]
      · rw [List.map_cons] at hnd
        have hnd2 := List.nodup_cons.mp hnd
        have hq1 : q.1 ∉ qs.map Prod.fst := hnd2.1
        have hqp : (q.1 == p.1) = false := by
          rw [beq_eq_false_iff_ne]
          intro hcontra
          apply hq1
          rw [hcontra]
          exact List.mem_map_of_mem Prod.fst hmem
        rw [List.find?]
        rw [hqp]
        exact ih hnd2.2 hmem

theorem normalizeCatsFrom_map (cats : JVal)
    (hg : ∀ k, goodItems (getPropD cats k) = true) :
    ∀ (keys : List String) (acc : List (String × JVal)),
    keys.Nodup → (∀ k ∈ keys, ∀ p ∈ acc, p.1 ≠ k) →
    normalizeCatsFrom cats acc keys =
      .ok (acc ++ keys.map (fun k => (k, normItemsD (getPropD cats k)))) := by
  intro keys
  induction keys with
  | nil => intro acc h1 h2; simp [normalizeCatsFrom]
  | cons k ks ih =>
      intro acc hnd hdisj
      unfold normalizeCatsFrom
      rw [normalizeItems_eq _ (hg k)]
      show normalizeCatsFrom cats (objSet acc k (normItemsD (getPropD cats k))) ks
          = .ok (acc ++ (k :: ks).map (fun k => (k, normItemsD (getPropD cats k))))
      rw [objSet_append acc k _ (fun p hp => hdisj k (List.mem_cons_self k ks) p hp)]
      have hnd2 := List.nodup_cons.mp hnd
      rw [ih (acc ++ [(k, normItemsD (getPropD cats k))]) hnd2.2 ?_]
      · simp
      · intro k2 hk2 p hp
        rcases List.mem_append.mp hp with h1 | h1
        · exact hdisj k2 (List.mem_cons_of_mem k hk2) p h1
        · simp only [List.mem_singleton] at h1
          rw [h1]
          show k ≠ k2
          intro hcontra
          rw [hcontra] at hnd2
          exact hnd2.1 hk2

/-- C6 (confirmed): for every valid category-hit payload (an object
whose `categories` is an object with distinct keys whose values the
normalizer accepts), `normalizeResult` preserves both the insertion
order of the categories and the order of the hits inside each category
exactly as received: the output `categories` is literally `List.map`
over the input association list (`cfs.map`), and each category's hits
are `List.map normHitD` over its input array (inside `normItemsD`) — no
re-sorting anywhere. -/
theorem normalizeResult_map (rfs cfs : List (String × JVal))
    (hcat : getPropD (.obj rfs) "categories" = .obj cfs)
    (hnd : (cfs.map Prod.fst).Nodup)
    (hgood : ∀ p ∈ cfs, goodItems p.2 = true) :
    normalizeResult (.obj rfs) = .ok (.obj
      [("summary", jsOr (getPropD (.obj rfs) "summary") (.obj [])),
       ("categories", .obj (cfs.map (fun p => (p.1, normItemsD p.2))))]) := by
  have hall : cfs.all (fun p => goodItems p.2) = true := List.all_eq_true.mpr hgood
  have hg := fun k => goodCats_getProp cfs hall k
  have hjs : jsOr (getPropD (.obj rfs) "categories") (.obj []) = .obj cfs := by
    rw [hcat]; rfl
  have hmap := normalizeCatsFrom_map (.obj cfs) hg (cfs.map Prod.fst) []
    hnd (by intro k hk p hp; simp at hp)
  have hconv : (cfs.map Prod.fst).map (fun k => (k, normItemsD (getPropD (.obj cfs) k)))
      = cfs.map (fun p => (p.1, normItemsD p.2)) := by
    rw [List.map_map]
    apply List.map_congr_left
    intro p hp
    show (p.1, normItemsD (getPropD (.obj cfs) p.1)) = (p.1, normItemsD p.2)
    rw [getPropD_obj_nodup cfs p hnd hp]
  unfold normalizeResult
  show (match objectKeys (jsOr (getPropD (.obj rfs) "categories") (.obj [])) with
    | Except.error e => Except.error e
    | Except.ok keys =>
        (match normalizeCatsFrom (jsOr (getPropD (.obj rfs) "categories") (.obj [])) [] keys with
        | Except.error e => Except.error e
        | Except.ok normalized =>
            Except.ok (.obj [("summary", jsOr (getPropD (.obj rfs) "summary") (.obj [])),
                       ("categories", .obj normalized)]) : Except Unit JVal)) = _
  rw [hjs]
  have hk : objectKeys (.obj cfs) = .ok (cfs.map Prod.fst) := rfl
  rw [hk]
  show (match normalizeCatsFrom (.obj cfs) [] (cfs.map Prod.fst) with
    | Except.error e => Except.error e
    | Except.ok normalized =>
        Except.ok (.obj [("summary", jsOr (getPropD (.obj rfs) "summary") (.obj [])),
                   ("categories", (.obj normalized : JVal))]) : Except Unit JVal) = _
  rw [hmap]
  show Except.ok (JVal.obj [("summary", jsOr (getPropD (.obj rfs) "summary") (.obj [])),
      ("categories", .obj ([] ++ (cfs.map Prod.fst).map
        (fun k => (k, normItemsD (getPropD (.obj cfs) k)))))]) = _
  rw [List.nil_append, hconv]

/-- Unknown codes miss the severity map. -/
theorem severityMap_none (s : String)
    (h1 : s ≠ "critical") (h2 : s ≠ "high") (h3 : s ≠ "medium") (h4 : s ≠ "low") :
    severityMap s = none := by
  unfold severityMap
  split
  · exact absurd rfl h1
  · exact absurd rfl h2
  · exact absurd rfl h3
  · exact absurd rfl h4
  · rfl

theorem classifyMini_unknown (s : String)
    (h1 : s ≠ "critical") (h2 : s ≠ "high") (h3 : s ≠ "medium") (h4 : s ≠ "low") :
    classifyMini s = .str s := by
  unfold classifyMini severityLookup
  show jsOr (match severityMap s with
    | some l => JVal.str l
    | none => JVal.undef) (.str s) = .str s
  rw [severityMap_none s h1 h2 h3 h4]
  rfl

theorem classifyWeb_unknown (s : String) (hne : s ≠ "")
    (h1 : asciiLower s ≠ "critical") (h2 : asciiLower s ≠ "high")
    (h3 : asciiLower s ≠ "medium") (h4 : asciiLower s ≠ "low") :
    classifyWeb s = asciiLower s := by
  unfold classifyWeb
  have ht : truthy (.str s) = true := by simp [truthy, hne]
  rw [ht]
  simp only [if_true]
  rw [severityMap_none _ h1 h2 h3 h4]
  rfl

/-- Fields of an object item other than the three the normalizer sets
survive into the normalized hit unchanged. -/
theorem objSet_mem_ne (fs : List (String × JVal)) (k : String) (v : JVal)
    (q : String) (w : JVal) (hq : (q, w) ∈ fs) (hne : q ≠ k) :
    (q, w) ∈ objSet fs k v := by
  unfold objSet
  split_ifs with h
  · have himg : (q, w) = (fun p => if p.1 == k then (k, v) else p) (q, w) := by
      have : ((q, w).1 == k) = false := by
        rw [beq_eq_false_iff_ne]
        exact hne
      simp [this]
    rw [himg]
    exact List.mem_map_of_mem _ hq
  · exact List.mem_append.mpr (Or.inl hq)

theorem normalizeHit_passthrough (fs : List (String × JVal)) (q : String) (w : JVal)
    (hq : (q, w) ∈ fs)
    (h1 : q ≠ "severityLabel") (h2 : q ≠ "items") (h3 : q ≠ "evidences") :
    ∃ hfs, normalizeHit (.obj fs) = .ok (.obj hfs) ∧ (q, w) ∈ hfs := by
  refine ⟨_, normalizeHit_eq (.obj fs) rfl, ?_⟩
  show (q, w) ∈ objSet (objSet (objSet (spreadFields (.obj fs)) "severityLabel" _) "items" _)
    "evidences" _
  apply objSet_mem_ne _ _ _ _ _ _ h3
  apply objSet_mem_ne _ _ _ _ _ _ h2
  apply objSet_mem_ne _ _ _ _ _ _ h1
  exact hq

theorem normalize_total_aux (r : JVal) (hnn : r.isNullOrUndef = false)
    (h : goodCats (jsOr (getPropD r "categories") (.obj [])) = true) :
    ∃ out, normalizeResult r = .ok out ∧ wellFormedResult out = true := by
  obtain ⟨cfs, heq, hall⟩ := normalize_core r hnn h
  refine ⟨_, heq, ?_⟩
  show cfs.all (fun p => isHitList p.2) = true
  exact hall

/-- C1 counterexample: `normalizeResult(null)` throws.  The `result = {}`
default parameter only replaces `undefined`, so a `null` payload reaches
`result.categories`, a property read on `null`, which raises a
`TypeError` — the normalizer is not total on all payloads. -/
theorem normalizeResult_null_throws : normalizeResult .null = .error () := rfl

/-- C1 (amended): the result normalizer never throws and returns a
well-formed `AnalysisResult` (a two-field object whose categories map to
arrays of hit objects, with missing fields defaulted to empty objects
and arrays) for every payload that is not `null` and whose (defaulted)
`categories` field is an object all of whose values are absent/falsy or
arrays free of `null`/`undefined` items.  Outside this class the code
can throw (see the counterexample). -/
theorem normalizeResult_total_on_goodPayload (r : JVal) (h : goodPayload r = true) :
    ∃ out, normalizeResult r = .ok out ∧ wellFormedResult out = true := by
  cases r with
  | null => simp [goodPayload] at h
  | undef => exact ⟨.obj [("summary", .obj []), ("categories", .obj [])], rfl, rfl⟩
  | bool b => exact normalize_total_aux _ rfl h
  | num n => exact normalize_total_aux _ rfl h
  | str s => exact normalize_total_aux _ rfl h
  | arr xs => exact normalize_total_aux _ rfl h
  | obj fs => exact normalize_total_aux _ rfl h

/-- Witness for C1's amended theorem at a concrete payload. -/
theorem normalizeResult_total_on_goodPayload_witness :
    goodPayload (.obj [("categories",
        .obj [("拦标项", .arr [.obj [("severity", .str "critical"), ("title", .str "唯一品牌")]])]),
      ("summary", .obj [("拦标项", .num 1)])]) = true ∧
    ∃ out, normalizeResult (.obj [("categories",
        .obj [("拦标项", .arr [.obj [("severity", .str "critical"), ("title", .str "唯一品牌")]])]),
      ("summary", .obj [("拦标项", .num 1)])]) = .ok out ∧ wellFormedResult out = true :=
  ⟨rfl, normalizeResult_total_on_goodPayload _ rfl⟩

/-- C5 counterexample: in the web client the severity code is lowercased
before lookup and fallback, so an unknown code is not echoed back
unchanged: `classifyWeb "A" = "a" ≠ "A"` (and a non-lowercase known code
such as "CRITICAL" gets the fixed label instead of an echo). -/
theorem web_classifier_lowercases :
    ("A" ∉ (["critical", "high", "medium", "low"] : List String)) ∧
    classifyWeb "A" = "a" ∧ ("a" : String) ≠ "A" ∧
    classifyWeb "CRITICAL" = "高风险" := by
  refine ⟨by decide, by decide, by decide, by decide⟩

/-- C5 (amended): both severity classifiers are total pure functions on
strings returning the four fixed labels for the four known codes.  The
miniprogram classifier echoes every other code back unchanged; the web
classifier first defaults an empty code to "medium" and lowercases, so
the four codes are recognized case-insensitively and every other code is
echoed back in lowercase rather than verbatim. -/
theorem classifier_behavior :
    (classifyMini "critical" = .str "高风险" ∧ classifyMini "high" = .str "较高风险" ∧
     classifyMini "medium" = .str "中风险" ∧ classifyMini "low" = .str "低风险") ∧
    (∀ s : String, s ≠ "critical" → s ≠ "high" → s ≠ "medium" → s ≠ "low" →
      classifyMini s = .str s) ∧
    (classifyWeb "critical" = "高风险" ∧ classifyWeb "high" = "较高风险" ∧
     classifyWeb "medium" = "中风险" ∧ classifyWeb "low" = "低风险" ∧
     classifyWeb "" = "中风险") ∧
    (∀ s : String, s ≠ "" → asciiLower s ≠ "critical" → asciiLower s ≠ "high" →
      asciiLower s ≠ "medium" → asciiLower s ≠ "low" → classifyWeb s = asciiLower s) := by
  refine ⟨⟨rfl, rfl, rfl, rfl⟩, classifyMini_unknown, ⟨?_, ?_, ?_, ?_, ?_⟩, classifyWeb_unknown⟩
  · decide
  · decide
  · decide
  · decide
  · decide

/-- Witness for C5's amended theorem at concrete unknown codes. -/
theorem classifier_behavior_witness :
    classifyMini "urgent" = .str "urgent" ∧ classifyWeb "Urgent" = "urgent" :=
  ⟨classifier_behavior.2.1 "urgent" (by decide) (by decide) (by decide) (by decide),
   by rw [classifier_behavior.2.2.2 "Urgent" (by decide) (by decide) (by decide)
       (by decide) (by decide)]; decide⟩

/-- Witness for C6 at a two-category payload: the categories come out in
the order given ("b" before "a") with their hit lists mapped pointwise. -/
theorem normalizeResult_map_witness :
    normalizeResult (.obj [("categories", .obj
      [("b", .arr [.obj [("severity", .str "low")], .obj [("severity", .str "high")]]),
       ("a", .arr [.obj [("severity", .str "critical")]])])])
    = .ok (.obj [("summary", .obj []),
        ("categories", .obj
          ([("b", .arr [.obj [("severity", .str "low")], .obj [("severity", .str "high")]]),
            ("a", .arr [.obj [("severity", .str "critical")]])].map
            (fun p => (p.1, normItemsD p.2))))]) := by
  have h := normalizeResult_map
    [("categories", .obj
      [("b", .arr [.obj [("severity", .str "low")], .obj [("severity", .str "high")]]),
       ("a", .arr [.obj [("severity", .str "critical")]])])]
    [("b", .arr [.obj [("severity", .str "low")], .obj [("severity", .str "high")]]),
     ("a", .arr [.obj [("severity", .str "critical")]])]
    rfl (by decide) (by intro p hp; fin_cases hp <;> rfl)
  exact h

/-- C7 counterexample: `normalizeResult` spreads every field of a raw
hit into the normalized hit (`{...item, ...}`), so an unknown hit field
("foo") is copied through verbatim, contradicting the claim that unknown
fields are never copied into the `AnalysisResult`. -/
theorem unknown_hit_field_copied :
    normalizeResult (.obj [("categories", .obj [("c", .arr [.obj [("foo", .str "bar")]])])])
      = .ok (.obj [("summary", .obj []),
          ("categories", .obj [("c", .arr [.obj [("foo", .str "bar"), ("severityLabel", .undef),
            ("items", .arr []), ("evidences", .arr [])]])])]) ∧
    getPropD (getPropD (getPropD (.obj [("summary", .obj []),
        ("categories", .obj [("c", .arr [.obj [("foo", .str "bar"), ("severityLabel", .undef),
          ("items", .arr []), ("evidences", .arr [])]])])]) "categories") "c") "0"
      = .obj [("foo", .str "bar"), ("severityLabel", .undef),
              ("items", .arr []), ("evidences", .arr [])] :=
  ⟨rfl, rfl⟩

/-- C7 (amended): at the top level unknown payload fields are indeed
dropped — the output has exactly the two fields `summary` and
`categories` — but inside each hit the spread `{...item}` copies every
raw field through verbatim, known or unknown; only `severityLabel`,
`items` and `evidences` are (re)written. -/
theorem normalize_field_passthrough :
    (∀ r : JVal, goodPayload r = true →
      ∃ sm cats, normalizeResult r = .ok (.obj [("summary", sm), ("categories", cats)])) ∧
    (∀ (fs : List (String × JVal)) (q : String) (w : JVal), (q, w) ∈ fs →
      q ≠ "severityLabel" → q ≠ "items" → q ≠ "evidences" →
      ∃ hfs, normalizeHit (.obj fs) = .ok (.obj hfs) ∧ (q, w) ∈ hfs) := by
  constructor
  · intro r h
    cases r with
    | null => simp [goodPayload] at h
    | undef => exact ⟨.obj [], .obj [], rfl⟩
    | bool b =>
        obtain ⟨cfs, heq, _⟩ := normalize_core (.bool b) rfl h
        exact ⟨_, _, heq⟩
    | num n =>
        obtain ⟨cfs, heq, _⟩ := normalize_core (.num n) rfl h
        exact ⟨_, _, heq⟩
    | str s =>
        obtain ⟨cfs, heq, _⟩ := normalize_core (.str s) rfl h
        exact ⟨_, _, heq⟩
    | arr xs =>
        obtain ⟨cfs, heq, _⟩ := normalize_core (.arr xs) rfl h
        exact ⟨_, _, heq⟩
    | obj fs =>
        obtain ⟨cfs, heq, _⟩ := normalize_core (.obj fs) rfl h
        exact ⟨_, _, heq⟩
  · intro fs q w hq h1 h2 h3
    exact normalizeHit_passthrough fs q w hq h1 h2 h3

/-- Witness for C7's amended theorem at concrete inputs. -/
theorem normalize_field_passthrough_witness :
    (∃ sm cats, normalizeResult (.obj [("extra_top", .str "zap")])
      = .ok (.obj [("summary", sm), ("categories", cats)])) ∧
    (∃ hfs, normalizeHit (.obj [("foo", .str "bar")]) = .ok (.obj hfs) ∧
      ("foo", JVal.str "bar") ∈ hfs) :=
  ⟨normalize_field_passthrough.1 _ rfl,
   normalize_field_passthrough.2 [("foo", .str "bar")] "foo" (.str "bar")
     (by simp) (by decide) (by decide) (by decide)⟩

theorem isStrEq_eq (v : JVal) (s : String) (h : isStrEq v s = true) : v = .str s := by
  cases v with
  | str t => simp only [isStrEq, beq_iff_eq] at h; rw [h]
  | null => simp [isStrEq] at h
  | undef => simp [isStrEq] at h
  | bool b => simp [isStrEq] at h
  | num n => simp [isStrEq] at h
  | arr xs => simp [isStrEq] at h
  | obj fs => simp [isStrEq] at h

/-- C10 (confirmed): in the miniprogram handler a result is normalized
and delivered only when the snapshot's status is exactly "completed" and
its `result` is truthy (hence neither null nor absent); for a
"completed" snapshot whose result is falsy no delivery happens —
`_handleJob` polls again when a job id is present and otherwise reports
the terminal "未返回任务 ID" (no job id) state. -/
theorem mini_completed_delivery_guard :
    (∀ (job n jid : JVal), job.isNullOrUndef = false →
      handleJob job = .ok (.deliver n jid) →
      jsOr (getPropD job "status") (.str "") = .str "completed" ∧
      truthy (getPropD job "result") = true ∧
      getPropD job "result" ≠ .null ∧ getPropD job "result" ≠ .undef) ∧
    (∀ job : JVal, job.isNullOrUndef = false →
      isStrEq (jsOr (getPropD job "status") (.str "")) "completed" = true →
      truthy (getPropD job "result") = false →
      handleJob job = .ok (if truthy (getPropD job "job_id") then .poll (getPropD job "job_id")
        else .noJobId)) := by
  constructor
  · intro job n jid hnn hdel
    unfold handleJob at hdel
    rw [hnn] at hdel
    simp only [Bool.false_eq_true, if_false] at hdel
    split_ifs at hdel with h1 h2 h3
    · rw [Bool.and_eq_true] at h1
      obtain ⟨hst, hres⟩ := h1
      refine ⟨isStrEq_eq _ _ hst, hres, ?_, ?_⟩
      · intro hcontra; rw [hcontra] at hres; simp [truthy] at hres
      · intro hcontra; rw [hcontra] at hres; simp [truthy] at hres
    · simp at hdel
    · simp at hdel
    · simp at hdel
  · intro job hnn hst hres
    unfold handleJob
    rw [hnn]
    simp only [Bool.false_eq_true, if_false]
    have h1 : (isStrEq (jsOr (getPropD job "status") (.str "")) "completed"
        && truthy (getPropD job "result")) = false := by
      rw [hst, hres]
      rfl
    rw [h1]
    have h2 : isStrEq (jsOr (getPropD job "status") (.str "")) "failed" = false := by
      rw [isStrEq_eq _ _ hst]
      rfl
    rw [h2]
    simp only [Bool.false_eq_true, if_false]
    split_ifs with h3
    · rfl
    · rfl

/-- Witness for C10 at a concrete "completed but result missing"
snapshot carrying a job id: another poll is decided, no delivery. -/
theorem mini_completed_delivery_guard_witness :
    handleJob (.obj [("status", .str "completed"), ("job_id", .str "j1")])
      = .ok (.poll (.str "j1")) := by
  have h := mini_completed_delivery_guard.2
    (.obj [("status", .str "completed"), ("job_id", .str "j1")]) rfl rfl rfl
  simpa using h

/-- C3 counterexample: in the web client a submission response with a
non-terminal status and no job id produces NO error report at all — the
run leaves the outcome log empty, schedules nothing and merely
re-enables the analyze button, while the claim demands an immediate
"cannot track job" `onError`. -/
theorem web_missing_job_id_no_error :
    (runW [.click, .subOk 0 (.obj [("status", .str "processing")])]).log = [] ∧
    (runW [.click, .subOk 0 (.obj [("status", .str "processing")])]).timers = [] ∧
    (runW [.click, .subOk 0 (.obj [("status", .str "processing")])]).fetches = [] ∧
    (runW [.click, .subOk 0 (.obj [("status", .str "processing")])]).disabled = false :=
  ⟨rfl, rfl, rfl, rfl⟩

/-- C3 (amended): on a non-terminal snapshot without a job id, the
miniprogram client immediately reports the terminal "未返回任务 ID" (no
job id) state (loading stops, no poll is scheduled), while the web
client schedules no poll and re-enables the analyze button but reports
no error at all. -/
theorem missing_job_id_behavior :
    (∀ job : JVal, job.isNullOrUndef = false →
      isStrEq (jsOr (getPropD job "status") (.str "")) "completed" = false →
      isStrEq (jsOr (getPropD job "status") (.str "")) "failed" = false →
      truthy (getPropD job "job_id") = false →
      handleJob job = .ok .noJobId) ∧
    (∀ (s : MiniState) (j : Nat),
      (applyMini s j (.ok .noJobId)).statusText = .str "未返回任务 ID" ∧
      (applyMini s j (.ok .noJobId)).loading = false ∧
      (applyMini s j (.ok .noJobId)).timers = s.timers ∧
      (applyMini s j (.ok .noJobId)).log = s.log ++ [⟨j, .failure (.str "未返回任务 ID"), s.subCount⟩]) ∧
    (∀ (s : WebState) (fid : Nat) (g : SubFetch) (data : JVal),
      s.subFetches.find? (fun x => x.id == fid) = some g →
      data.isNullOrUndef = false →
      truthy (getPropD data "status") = true →
      truthy (getPropD data "result") = false →
      truthy (getPropD data "job_id") = false →
      (stepW s (.subOk fid data)).log = s.log ∧
      (stepW s (.subOk fid data)).timers = s.timers ∧
      (stepW s (.subOk fid data)).disabled = false) := by
  refine ⟨?_, ?_, ?_⟩
  · intro job hnn hc hf hj
    unfold handleJob
    rw [hnn]
    simp only [Bool.false_eq_true, if_false]
    rw [hc]
    simp only [Bool.false_and, Bool.false_eq_true, if_false]
    rw [hf]
    simp only [Bool.false_eq_true, if_false]
    rw [hj]
    simp only [Bool.false_eq_true, if_false]
  · intro s j
    exact ⟨rfl, rfl, rfl, rfl⟩
  · intro s fid g data hfind hnn hst hres hjid
    simp only [stepW, hfind]
    unfold handleJobOk
    rw [hnn]
    simp only [Bool.false_eq_true, if_false]
    have hcond : (truthy (getPropD data "status") && !truthy (getPropD data "result")) = true := by
      rw [hst, hres]
      rfl
    rw [hcond]
    simp only [if_true]
    rw [hjid]
    simp only [Bool.false_eq_true, if_false]
    refine ⟨?_, ?_, ?_⟩ <;> trivial

/-- Witness for C3's amended theorem at concrete inputs. -/
theorem missing_job_id_behavior_witness :
    handleJob (.obj [("status", .str "processing")]) = .ok .noJobId ∧
    (stepW (runW [.click]) (.subOk 0 (.obj [("status", .str "processing")]))).log = [] ∧
    (stepW (runW [.click]) (.subOk 0 (.obj [("status", .str "processing")]))).timers = [] := by
  refine ⟨missing_job_id_behavior.1 _ rfl rfl rfl rfl, ?_, ?_⟩
  · have h := (missing_job_id_behavior.2.2 (runW [.click]) 0 ⟨0, 0⟩
      (.obj [("status", .str "processing")]) rfl rfl rfl rfl rfl).1
    rw [h]
    rfl
  · have h := (missing_job_id_behavior.2.2 (runW [.click]) 0 ⟨0, 0⟩
      (.obj [("status", .str "processing")]) rfl rfl rfl rfl rfl).2.1
    rw [h]
    rfl

/-- C2 counterexample: a poll response already in flight when the second
submission starts IS still processed.  In the trace below, submission 0
("job a") has fired its timer and its poll request is in flight when the
user clicks again; the eventual "completed" response for job a then
renders job a's result (the outcome log carries an entry for submission
0, delivered when 2 submissions had started, and the display holds job
a's payload), and its `clearTimeout(pollTimer)` kills submission 1's
pending timer (`timers = []`), so the superseded job both fires and
mutates displayed state — contradicting the claim. -/
theorem stale_poll_response_delivered :
    (runW [.click, .subOk 0 (.obj [("job_id", .str "a"), ("status", .str "processing")]),
           .timerFire 1, .click,
           .subOk 3 (.obj [("job_id", .str "b"), ("status", .str "processing")]),
           .pollOk 2 (.obj [("status", .str "completed"),
                            ("result", .obj [("summary", .str "old")])])]).log
      = [⟨0, .result (.obj [("summary", .str "old")]), 2⟩] ∧
    (runW [.click, .subOk 0 (.obj [("job_id", .str "a"), ("status", .str "processing")]),
           .timerFire 1, .click,
           .subOk 3 (.obj [("job_id", .str "b"), ("status", .str "processing")]),
           .pollOk 2 (.obj [("status", .str "completed"),
                            ("result", .obj [("summary", .str "old")])])]).display
      = some (.obj [("summary", .str "old")]) ∧
    (runW [.click, .subOk 0 (.obj [("job_id", .str "a"), ("status", .str "processing")]),
           .timerFire 1, .click,
           .subOk 3 (.obj [("job_id", .str "b"), ("status", .str "processing")]),
           .pollOk 2 (.obj [("status", .str "completed"),
                            ("result", .obj [("summary", .str "old")])])]).subCount = 2 ∧
    (runW [.click, .subOk 0 (.obj [("job_id", .str "a"), ("status", .str "processing")]),
           .timerFire 1, .click,
           .subOk 3 (.obj [("job_id", .str "b"), ("status", .str "processing")]),
           .pollOk 2 (.obj [("status", .str "completed"),
                            ("result", .obj [("summary", .str "old")])])]).timers = [] :=
  ⟨rfl, rfl, rfl, rfl⟩

/-- C2 (amended): cancellation only invalidates the pending timer.  If,
when the new submission's click happens, the superseded submission `i`
owns no in-flight poll or submission request and every pending timer of
`i` is the one the `pollTimer` variable refers to, then the click
invalidates that timer and no outcome for `i` is ever logged afterwards,
whatever the remaining events are.  (When a poll response of `i` is
already in flight the guarantee fails — see the counterexample.) -/
theorem superseded_pending_timer_silent (s : WebState) (i : Nat) (evs : List WebEv)
    (hc : i < s.subCount)
    (hf : ∀ x ∈ s.fetches, x.sub ≠ i)
    (hg : ∀ x ∈ s.subFetches, x.sub ≠ i)
    (ht : ∀ t ∈ s.timers, t.sub = i → s.pollTimer = some t.id) :
    logFor (runWFrom (stepW s .click) evs).log i = logFor s.log i := by
  have hdead : deadW (stepW s .click) i := by
    show deadW (webClick s) i
    unfold webClick
    refine ⟨?_, ?_, ?_⟩
    · intro t htm
      show t.sub ≠ i
      intro hcontra
      have htm2 : t ∈ (clearPollTimer { s with display := none }).timers := htm
      unfold clearPollTimer at htm2
      cases hpt : s.pollTimer with
      | none =>
          rw [show ({ s with display := none } : WebState).pollTimer = s.pollTimer from rfl,
            hpt] at htm2
          have := ht t htm2 hcontra
          rw [hpt] at this
          exact Option.noConfusion this
      | some a =>
          rw [show ({ s with display := none } : WebState).pollTimer = s.pollTimer from rfl,
            hpt] at htm2
          have hmem : t ∈ s.timers := List.mem_of_mem_filter htm2
          have hkeep := List.of_mem_filter htm2
          have heq := ht t hmem hcontra
          rw [hpt] at heq
          have : a = t.id := Option.some.inj heq
          rw [this] at hkeep
          simp at hkeep
    · intro x hx
      show x.sub ≠ i
      have : (clearPollTimer { s with display := none }).fetches = s.fetches :=
        clearPollTimer_fetches _
      rw [this] at hx
      exact hf x hx
    · intro x hx
      show x.sub ≠ i
      have hge : (clearPollTimer { s with display := none }).subFetches = s.subFetches :=
        clearPollTimer_subFetches _
      rcases List.mem_append.mp (by rw [← hge] at *; exact hx) with h1 | h1
      · exact hg x (by rw [hge] at h1; exact h1)
      · simp at h1
        rw [h1]
        have hsc : (clearPollTimer { s with display := none }).subCount = s.subCount :=
          clearPollTimer_subCount _
        rw [hsc]
        show s.subCount ≠ i
        omega
  have hc2 : i < (stepW s .click).subCount := by
    show i < (webClick s).subCount
    unfold webClick
    have hsc : (clearPollTimer { s with display := none }).subCount = s.subCount :=
      clearPollTimer_subCount _
    show i < (clearPollTimer { s with display := none }).subCount + 1
    rw [hsc]
    omega
  have hlog : (stepW s .click).log = s.log := by
    show (webClick s).log = s.log
    unfold webClick
    show (clearPollTimer { s with display := none }).log = s.log
    exact clearPollTimer_log _
  rw [dead_runWFrom (stepW s .click) i evs hc2 hdead, hlog]

/-- Witness for C2's amended theorem: a state in which submission 0's
only artifact is the pollTimer-referenced pending timer; after the
second click and an arbitrary further event, no outcome for 0 exists. -/
theorem superseded_pending_timer_silent_witness :
    logFor (runWFrom (stepW ⟨2, 1, some 1, [⟨1, 0, .str "a", 1600⟩], [], [], [], none, true⟩
      .click) [.timerFire 1]).log 0 = logFor ([] : List LogEntry) 0 := by
  exact superseded_pending_timer_silent
    ⟨2, 1, some 1, [⟨1, 0, .str "a", 1600⟩], [], [], [], none, true⟩ 0 [.timerFire 1]
    (by show (0:Nat) < 1; omega)
    (by intro x hx; simp at hx)
    (by intro x hx; simp at hx)
    (by intro t htm hsub; simp at htm; rw [htm])

/-- C4 counterexample: the claim — read over finite executions as "once a
submission's processing has fully quiesced, exactly one outcome was
logged for it, unless a later submission superseded it" — is false: a
submission whose response carries a non-terminal status and no job id
quiesces with NO outcome at all, without being superseded. -/
theorem exactly_once_refuted :
    ¬ (∀ (evs : List WebEv) (i : Nat), i < (runW evs).subCount →
        deadW (runW evs) i → (runW evs).subCount = i + 1 →
        (logFor (runW evs).log i).length = 1) := by
  intro h
  have h0 := h [.click, .subOk 0 (.obj [("status", .str "processing")])] 0
    (by show (0:Nat) < 1; omega)
    (by refine ⟨?_, ?_, ?_⟩ <;> intro x hx <;>
        simp [show (runW [.click, .subOk 0 (.obj [("status", .str "processing")])]).timers
            = [] from rfl,
          show (runW [.click, .subOk 0 (.obj [("status", .str "processing")])]).fetches
            = [] from rfl,
          show (runW [.click, .subOk 0 (.obj [("status", .str "processing")])]).subFetches
            = [] from rfl] at hx)
    rfl
  have hz : (logFor (runW [.click, .subOk 0 (.obj [("status", .str "processing")])]).log 0).length
      = 0 := rfl
  rw [h0] at hz
  exact Nat.one_ne_zero hz

/-- C4 (amended): at most one of `onResult`/`onError` fires per
submission — each submission's outcome log never exceeds one entry, in
both clients, over every possible execution.  "Exactly one" fails: a
submission can end with no outcome at all (missing job id — see the
counterexample — or its successor's stale-response `clearTimeout`
killing its timer), and superseded submissions can still fire (C2). -/
theorem outcome_at_most_once :
    (∀ (evs : List WebEv) (i : Nat), (logFor (runW evs).log i).length ≤ 1) ∧
    (∀ (evs : List MiniEv) (i : Nat), (logFor (runM evs).log i).length ≤ 1) := by
  constructor
  · intro evs i
    have h := (InvW_run evs).2.2.2.2 i
    unfold liveW at h
    omega
  · intro evs i
    have h := (InvM_run evs).2.2.2.2 i
    unfold liveM at h
    omega

/-- C9 (confirmed): on every non-terminal status observation the engine
arms exactly one re-check timer with its fixed constant delay — 1600 ms
in the web client, 1500 ms in the miniprogram (the claim's single
constant of ~1.5-1.6 time units), with no backoff and no jitter (the
literal constant is part of the timer it creates) — and over every
execution each submission's job has at most one re-check outstanding
(pending timer or in-flight poll), so polls never overlap. -/
theorem poll_scheduling_discipline :
    (∀ (s : WebState) (fid : Nat) (f : PollFetch) (data : JVal),
      s.fetches.find? (fun x => x.id == fid) = some f →
      data.isNullOrUndef = false →
      isStrEq (getPropD data "status") "completed" = false →
      isStrEq (getPropD data "status") "failed" = false →
      (stepW s (.pollOk fid data)).timers = s.timers ++ [⟨s.nextId, f.sub, f.job, 1600⟩] ∧
      (stepW s (.pollOk fid data)).log = s.log) ∧
    (∀ (s : MiniState) (fid : Nat) (f : PollFetch) (data jid : JVal),
      s.polls.find? (fun x => x.id == fid) = some f →
      handleJob (jsOr data (.obj [])) = .ok (.poll jid) →
      (stepM s (.pollOk fid data)).timers = s.timers ++ [⟨s.nextId, f.sub, jid, 1500⟩] ∧
      (stepM s (.pollOk fid data)).log = s.log) ∧
    (∀ (evs : List WebEv) (i : Nat),
      ((runW evs).timers.filter (fun t => t.sub == i)).length +
        ((runW evs).fetches.filter (fun x => x.sub == i)).length ≤ 1) ∧
    (∀ (evs : List MiniEv) (i : Nat),
      ((runM evs).timers.filter (fun t => t.sub == i)).length +
        ((runM evs).polls.filter (fun x => x.sub == i)).length ≤ 1) := by
  refine ⟨?_, ?_, ?_, ?_⟩
  · intro s fid f data hfind hnn hnc hnf
    simp only [stepW, hfind]
    unfold pollTick
    rw [hnn]
    simp only [Bool.false_eq_true, if_false]
    rw [hnc]
    simp only [Bool.false_eq_true, if_false]
    rw [hnf]
    simp only [Bool.false_eq_true, if_false]
    exact ⟨rfl, rfl⟩
  · intro s fid f data jid hfind hact
    simp only [stepM, hfind]
    rw [hact]
    exact ⟨rfl, rfl⟩
  · intro evs i
    have h := (InvW_run evs).2.2.2.2 i
    unfold liveW at h
    omega
  · intro evs i
    have h := (InvM_run evs).2.2.2.2 i
    unfold liveM at h
    omega

/-- Witness for C9 at concrete states: a live poll of submission 0 in
each client observes a "processing" snapshot and arms exactly one timer
of delay 1600 (web) resp. 1500 (miniprogram). -/
theorem poll_scheduling_discipline_witness :
    (stepW ⟨3, 1, none, [], [⟨2, 0, .str "a"⟩], [], [], none, true⟩
        (.pollOk 2 (.obj [("status", .str "processing"), ("job_id", .str "a")]))).timers
      = [⟨3, 0, .str "a", 1600⟩] ∧
    (stepM ⟨3, 1, [], [], [⟨2, 0, .str "a"⟩], [], .str "", true⟩
        (.pollOk 2 (.obj [("status", .str "processing"), ("job_id", .str "a")]))).timers
      = [⟨3, 0, .str "a", 1500⟩] := by
  constructor
  · have h := (poll_scheduling_discipline.1 ⟨3, 1, none, [], [⟨2, 0, .str "a"⟩], [], [], none, true⟩
      2 ⟨2, 0, .str "a"⟩ (.obj [("status", .str "processing"), ("job_id", .str "a")])
      rfl rfl rfl rfl).1
    rw [h]
    rfl
  · have h := (poll_scheduling_discipline.2.1 ⟨3, 1, [], [], [⟨2, 0, .str "a"⟩], [], .str "", true⟩
      2 ⟨2, 0, .str "a"⟩ (.obj [("status", .str "processing"), ("job_id", .str "a")]) (.str "a")
      rfl rfl).1
    rw [h]
    rfl

theorem clearPollTimer_timers_mem (s : WebState) :
    ∀ t ∈ (clearPollTimer s).timers, t ∈ s.timers := by
  unfold clearPollTimer
  cases s.pollTimer with
  | none => exact fun t ht => ht
  | some a => exact fun t ht => List.mem_of_mem_filter ht

theorem logFor_append_self (l : List LogEntry) (e : LogEntry) :
    logFor (l ++ [e]) e.sub = logFor l e.sub ++ [e] := by
  simp [logFor, List.filter_append, List.filter_cons]

/-- C8 (confirmed): a transport-level poll failure (network rejection or
non-2xx response) is terminal.  In both clients it appends exactly one
failure outcome (the distinct poll-failure message: the thrown
`轮询失败 …` error text in the web client, the `轮询失败` status in the
miniprogram), schedules no new timer and issues no retry; and in the web
client, when the failing poll was the job's only live artifact, no
further outcome or poll for that submission ever occurs in any
continuation of the execution. -/
theorem poll_transport_failure_terminal :
    (∀ (s : WebState) (fid : Nat) (f : PollFetch) (msg : String),
      s.fetches.find? (fun x => x.id == fid) = some f →
      (stepW s (.pollFail fid msg)).log
          = s.log ++ [⟨f.sub, .failure (.str msg), s.subCount⟩] ∧
      (∀ t ∈ (stepW s (.pollFail fid msg)).timers, t ∈ s.timers) ∧
      (∀ x ∈ (stepW s (.pollFail fid msg)).fetches, x ∈ s.fetches)) ∧
    (∀ (s : MiniState) (fid : Nat) (f : PollFetch),
      s.polls.find? (fun x => x.id == fid) = some f →
      (stepM s (.pollFail fid)).log
          = s.log ++ [⟨f.sub, .failure (.str "轮询失败"), s.subCount⟩] ∧
      (stepM s (.pollFail fid)).timers = s.timers ∧
      (stepM s (.pollFail fid)).statusText = .str "轮询失败" ∧
      (stepM s (.pollFail fid)).loading = false) ∧
    (∀ (s : WebState) (fid : Nat) (f : PollFetch) (msg : String) (evs : List WebEv),
      s.fetches.find? (fun x => x.id == fid) = some f →
      f.sub < s.subCount →
      (∀ t ∈ s.timers, t.sub ≠ f.sub) →
      (∀ x ∈ s.subFetches, x.sub ≠ f.sub) →
      (∀ x ∈ s.fetches, x.sub = f.sub → x.id = fid) →
      logFor (runWFrom (stepW s (.pollFail fid msg)) evs).log f.sub
        = logFor s.log f.sub ++ [⟨f.sub, .failure (.str msg), s.subCount⟩]) := by
  refine ⟨?_, ?_, ?_⟩
  · intro s fid f msg hfind
    simp only [stepW, hfind]
    refine ⟨?_, ?_, ?_⟩
    · show (clearPollTimer { s with fetches := s.fetches.filter (fun x => x.id != fid) }).log
        ++ [⟨f.sub, .failure (.str msg),
          (clearPollTimer { s with fetches := s.fetches.filter (fun x => x.id != fid) }).subCount⟩]
        = s.log ++ [⟨f.sub, .failure (.str msg), s.subCount⟩]
      rw [clearPollTimer_log, clearPollTimer_subCount]
    · intro t ht
      exact clearPollTimer_timers_mem
        { s with fetches := s.fetches.filter (fun x => x.id != fid) } t ht
    · intro x hx
      have h2 : x ∈ (clearPollTimer
          { s with fetches := s.fetches.filter (fun y => y.id != fid) }).fetches := hx
      rw [clearPollTimer_fetches] at h2
      exact List.mem_of_mem_filter h2
  · intro s fid f hfind
    simp only [stepM, hfind]
    refine ⟨?_, ?_, ?_, ?_⟩ <;> trivial
  · intro s fid f msg evs hfind hflt htm hsf hfe
    have hmem : f ∈ s.fetches := List.mem_of_find?_eq_some hfind
    simp only [stepW, hfind]
    have hdead : deadW (webLogErr (clearPollTimer
        { s with fetches := s.fetches.filter (fun x => x.id != fid) }) f.sub (.str msg))
        f.sub := by
      refine ⟨?_, ?_, ?_⟩
      · intro t htmem
        have h3 : t ∈ s.timers := clearPollTimer_timers_mem
          { s with fetches := s.fetches.filter (fun x => x.id != fid) } t htmem
        exact htm t h3
      · intro x hx
        have h2 : x ∈ s.fetches.filter (fun y => y.id != fid) := by
          have h4 : x ∈ (clearPollTimer
              { s with fetches := s.fetches.filter (fun y => y.id != fid) }).fetches := hx
          rw [clearPollTimer_fetches] at h4
          exact h4
        intro hcontra
        have hid := hfe x (List.mem_of_mem_filter h2) hcontra
        have hkeep := List.of_mem_filter h2
        rw [hid] at hkeep
        simp at hkeep
      · intro x hx
        have h2 : x ∈ (clearPollTimer
            { s with fetches := s.fetches.filter (fun y => y.id != fid) }).subFetches := hx
        rw [clearPollTimer_subFetches] at h2
        exact hsf x h2
    have hc2 : f.sub < (webLogErr (clearPollTimer
        { s with fetches := s.fetches.filter (fun x => x.id != fid) }) f.sub
        (.str msg)).subCount := by
      show f.sub < (clearPollTimer
        { s with fetches := s.fetches.filter (fun x => x.id != fid) }).subCount
      rw [clearPollTimer_subCount]
      exact hflt
    rw [dead_runWFrom _ f.sub evs hc2 hdead]
    show logFor ((clearPollTimer
        { s with fetches := s.fetches.filter (fun x => x.id != fid) }).log
        ++ [⟨f.sub, .failure (.str msg), (clearPollTimer
          { s with fetches := s.fetches.filter (fun x => x.id != fid) }).subCount⟩]) f.sub
      = logFor s.log f.sub ++ [⟨f.sub, .failure (.str msg), s.subCount⟩]
    rw [clearPollTimer_log, clearPollTimer_subCount]
    exact logFor_append_self s.log ⟨f.sub, .failure (.str msg), s.subCount⟩

/-- Witness for C8 at concrete states with one in-flight poll each. -/
theorem poll_transport_failure_terminal_witness :
    (stepW ⟨3, 1, none, [], [⟨2, 0, .str "a"⟩], [], [], none, true⟩ (.pollFail 2 "轮询失败 500")).log
      = [⟨0, .failure (.str "轮询失败 500"), 1⟩] ∧
    (stepM ⟨3, 1, [], [], [⟨2, 0, .str "a"⟩], [], .str "", true⟩ (.pollFail 2)).log
      = [⟨0, .failure (.str "轮询失败"), 1⟩] ∧
    logFor (runWFrom (stepW ⟨3, 1, none, [], [⟨2, 0, .str "a"⟩], [], [], none, true⟩
        (.pollFail 2 "轮询失败 500")) [.timerFire 9, .click]).log 0
      = [⟨0, .failure (.str "轮询失败 500"), 1⟩] := by
  refine ⟨?_, ?_, ?_⟩
  · have h := (poll_transport_failure_terminal.1
      ⟨3, 1, none, [], [⟨2, 0, .str "a"⟩], [], [], none, true⟩ 2 ⟨2, 0, .str "a"⟩
      "轮询失败 500" rfl).1
    rw [h]
    rfl
  · have h := (poll_transport_failure_terminal.2.1
      ⟨3, 1, [], [], [⟨2, 0, .str "a"⟩], [], .str "", true⟩ 2 ⟨2, 0, .str "a"⟩ rfl).1
    rw [h]
    rfl
  · have h := poll_transport_failure_terminal.2.2
      ⟨3, 1, none, [], [⟨2, 0, .str "a"⟩], [], [], none, true⟩ 2 ⟨2, 0, .str "a"⟩
      "轮询失败 500" [.timerFire 9, .click] rfl
      (by show (0:Nat) < 1; omega)
      (by intro t ht; simp at ht)
      (by intro x hx; simp at hx)
      (by intro x hx hsub; simp at hx; rw [hx])
    rw [h]
    rfl
